import Mathlib

/-!
Verification of the mini-redis server engine: a shallow embedding of the
frame codec (src/frame.rs, src/connection.rs), the shared keyspace state
(src/db.rs) and the command parsers (src/cmd.rs, src/cmd/set.rs,
src/cmd/publish.rs, src/cmd/subscribe.rs), together with proofs of the
specification's testable properties.

Bytes are modelled as `Nat` (values < 256 in all real inputs), byte
buffers as `List Nat`, Rust `i64` as `Int` with explicit range checks
where the source performs checked arithmetic, and Rust `Instant` /
`Duration` as `Nat` milliseconds.
-/

/-- The wire frame (enum `Frame` in src/frame.rs).  `String` payloads of
`Simple` and `Error` are modelled as their UTF-8 byte lists (a Rust
`String` is exactly a byte vector that is valid UTF-8); `Bytes` payloads
as plain byte lists; `i64` as `Int`. -/
inductive Frame where
  | simple (s : List Nat)
  | error (s : List Nat)
  | integer (v : Int)
  | bulk (data : List Nat)
  | null
  | array (elems : List Frame)

/-- Index of the first CRLF pair in the buffer: the scan
`for i in 0..buf.len()-1` of `get_line` for a nonempty buffer. -/
def crlfIdx : List Nat → Option Nat
  | a :: b :: rest =>
    if a = 13 ∧ b = 10 then some 0
    else (crlfIdx (b :: rest)).map (· + 1)
  | _ => none

/-- Result of `get_line` (src/frame.rs:130-137).  `panicked` records the
arithmetic-underflow panic of `0..buf.len() - 1` on an empty buffer
(`usize` subtraction overflow in debug, out-of-bounds index in release). -/
inductive LineRes where
  | found (advance : Nat) (line : List Nat)
  | noLine
  | panicked

/-- `get_line` (src/frame.rs:130-137): find the first CRLF, return the
bytes before it and the number of bytes consumed including the CRLF. -/
def get_line (buf : List Nat) : LineRes :=
  match buf with
  | [] => .panicked
  | _ :: _ =>
    match crlfIdx buf with
    | some i => .found (i + 2) (buf.take i)
    | none => .noLine

/-- `i64::MAX`. -/
def i64max : Int := 9223372036854775807

/-- `i64::MIN`. -/
def i64min : Int := -9223372036854775808

/-- ASCII decimal digit value. -/
def digit_of (b : Nat) : Option Nat :=
  if 48 ≤ b ∧ b ≤ 57 then some (b - 48) else none

/-- Unsigned accumulation loop of `atoi` (atoi crate, checked `i64`):
every remaining byte must be a digit; overflow above `i64::MAX` fails. -/
def atoiPos : List Nat → Int → Option Int
  | [], acc => some acc
  | b :: rest, acc =>
    match digit_of b with
    | some d =>
      let acc2 := acc * 10 + (d : Int)
      if i64max < acc2 then none else atoiPos rest acc2
    | none => none

/-- Negative accumulation loop of `atoi` (checked subtraction, so that
`i64::MIN` itself parses). -/
def atoiNeg : List Nat → Int → Option Int
  | [], acc => some acc
  | b :: rest, acc =>
    match digit_of b with
    | some d =>
      let acc2 := acc * 10 - (d : Int)
      if acc2 < i64min then none else atoiNeg rest acc2
    | none => none

/-- `atoi::atoi::<i64>` (atoi crate v2): an optional sign followed by at
least one digit, consuming the whole slice, with checked `i64` range. -/
def atoi (s : List Nat) : Option Int :=
  match s with
  | [] => none
  | b :: rest =>
    if b = 43 then (if rest = [] then none else atoiPos rest 0)
    else if b = 45 then (if rest = [] then none else atoiNeg rest 0)
    else atoiPos (b :: rest) 0

/-- Result of `get_decimal` (src/frame.rs:120-125); the `panicked` case
propagates the `get_line` panic on an empty buffer. -/
inductive DecRes where
  | found (advance : Nat) (value : Int)
  | none
  | panicked

/-- `get_decimal` (src/frame.rs:120-125): a CRLF-terminated line parsed
by `atoi`; `None` when there is no full line or the line is not a valid
decimal. -/
def get_decimal (buf : List Nat) : DecRes :=
  match get_line buf with
  | .found n line =>
    match atoi line with
    | some d => .found n d
    | Option.none => .none
  | .noLine => .none
  | .panicked => .panicked

/-- Continuation byte 0x80..0xBF. -/
def utf8Cont (b : Nat) : Bool := 128 ≤ b && b ≤ 191

/-- UTF-8 validity of a byte list, as checked by Rust's
`String::from_utf8` (RFC 3629: no surrogates, no overlong forms, max
U+10FFFF). -/
def validUtf8 : List Nat → Bool
  | [] => true
  | b :: rest =>
    if b ≤ 127 then validUtf8 rest
    else if 194 ≤ b ∧ b ≤ 223 then
      match rest with
      | c1 :: rest1 => utf8Cont c1 && validUtf8 rest1
      | [] => false
    else if b = 224 then
      match rest with
      | c1 :: c2 :: rest2 =>
        (160 ≤ c1 && c1 ≤ 191) && utf8Cont c2 && validUtf8 rest2
      | _ => false
    else if (225 ≤ b ∧ b ≤ 236) ∨ b = 238 ∨ b = 239 then
      match rest with
      | c1 :: c2 :: rest2 => utf8Cont c1 && utf8Cont c2 && validUtf8 rest2
      | _ => false
    else if b = 237 then
      match rest with
      | c1 :: c2 :: rest2 =>
        (128 ≤ c1 && c1 ≤ 159) && utf8Cont c2 && validUtf8 rest2
      | _ => false
    else if b = 240 then
      match rest with
      | c1 :: c2 :: c3 :: rest3 =>
        (144 ≤ c1 && c1 ≤ 191) && utf8Cont c2 && utf8Cont c3 && validUtf8 rest3
      | _ => false
    else if 241 ≤ b ∧ b ≤ 243 then
      match rest with
      | c1 :: c2 :: c3 :: rest3 =>
        utf8Cont c1 && utf8Cont c2 && utf8Cont c3 && validUtf8 rest3
      | _ => false
    else if b = 244 then
      match rest with
      | c1 :: c2 :: c3 :: rest3 =>
        (128 ≤ c1 && c1 ≤ 143) && utf8Cont c2 && utf8Cont c3 && validUtf8 rest3
      | _ => false
    else false

/-- Result of `Frame::parse`.  `ok` carries the number of consumed bytes
and the parsed value; `incomplete` is `Err(Error::Incomplete)`;
`protoErr` is `Err(Error::Other(..))`; `panicked` records the places
where the source panics (`get_u8` on an empty buffer, `get_line` on an
empty remainder, and the `unimplemented!` arm for an unknown tag byte);
`fuelOut` is an artifact of the fuel parameter and never occurs when the
fuel exceeds the buffer length. -/
inductive ParseResult (α : Type) where
  | ok (consumed : Nat) (val : α)
  | incomplete
  | protoErr
  | panicked
  | fuelOut

mutual

/-- `Frame::parse` (src/frame.rs:18-85), with a fuel parameter making the
recursion structural.  Dispatch on the first byte: `+` 43, `-` 45,
`:` 58, `$` 36, `*` 42; any other first byte hits `unimplemented!`. -/
def Frame.parseF : Nat → List Nat → ParseResult Frame
  | 0, _ => .fuelOut
  | _ + 1, [] => .panicked
  | fuel + 1, b :: rest =>
    if b = 43 then
      match get_line rest with
      | .found adv line =>
        if validUtf8 line then .ok (1 + adv) (.simple line) else .protoErr
      | .noLine => .incomplete
      | .panicked => .panicked
    else if b = 45 then
      match get_line rest with
      | .found adv line =>
        if validUtf8 line then .ok (1 + adv) (.error line) else .protoErr
      | .noLine => .incomplete
      | .panicked => .panicked
    else if b = 58 then
      match get_decimal rest with
      | .found adv v => .ok (1 + adv) (.integer v)
      | .none => .incomplete
      | .panicked => .panicked
    else if b = 36 then
      match get_decimal rest with
      | .found adv len =>
        if len = -1 then .ok 5 .null
        else if len < 0 then .protoErr
        else
          let data_buf := rest.drop adv
          let n := len.toNat
          if n + 2 ≤ data_buf.length ∧ data_buf.getD n 0 = 13 ∧
              data_buf.getD (n + 1) 0 = 10 then
            .ok (1 + adv + n + 2) (.bulk (data_buf.take n))
          else .incomplete
      | .none => .incomplete
      | .panicked => .panicked
    else if b = 42 then
      match get_decimal rest with
      | .found adv cnt =>
        if cnt < 0 then .protoErr
        else
          match Frame.parseManyF fuel cnt.toNat (rest.drop adv) with
          | .ok consumed frames => .ok (1 + adv + consumed) (.array frames)
          | .incomplete => .incomplete
          | .protoErr => .protoErr
          | .panicked => .panicked
          | .fuelOut => .fuelOut
      | .none => .incomplete
      | .panicked => .panicked
    else .panicked

/-- The element loop of the `*` arm of `Frame::parse`: parse `n` frames
in sequence, adding up the consumed byte counts. -/
def Frame.parseManyF : Nat → Nat → List Nat → ParseResult (List Frame)
  | 0, _, _ => .fuelOut
  | _ + 1, 0, _ => .ok 0 []
  | fuel + 1, n + 1, buf =>
    match Frame.parseF fuel buf with
    | .ok adv f =>
      match Frame.parseManyF fuel n (buf.drop adv) with
      | .ok c fs => .ok (adv + c) (f :: fs)
      | .incomplete => .incomplete
      | .protoErr => .protoErr
      | .panicked => .panicked
      | .fuelOut => .fuelOut
    | .incomplete => .incomplete
    | .protoErr => .protoErr
    | .panicked => .panicked
    | .fuelOut => .fuelOut

end

/-- `Frame::parse` on a buffer; the fuel `buf.length + 1` is always
sufficient (each recursion step consumes at least one buffer byte). -/
def Frame.parse (buf : List Nat) : ParseResult Frame :=
  Frame.parseF (buf.length + 1) buf

/-- ASCII decimal digits of `n`, most significant first, accumulated onto
`acc` (the fuel makes the division recursion structural; `n ≤ fuel`
always holds at call sites). -/
def natDigitsGo : Nat → Nat → List Nat → List Nat
  | 0, _, acc => acc
  | fuel + 1, n, acc =>
    if n = 0 then acc else natDigitsGo fuel (n / 10) ((n % 10 + 48) :: acc)

/-- ASCII decimal digits of a natural number (`u64`-style formatting). -/
def natDigits (n : Nat) : List Nat :=
  if n = 0 then [48] else natDigitsGo n n []

/-- `i64::to_string` as ASCII bytes: minus sign for negatives, decimal
digits without leading zeros. -/
def intToDecimal (v : Int) : List Nat :=
  if v < 0 then 45 :: natDigits (-v).toNat else natDigits v.toNat

/-- `Connection::write_decimal` (src/connection.rs:99-103): the decimal
ASCII of the number followed by CRLF. -/
def write_decimal (num : Int) : List Nat := intToDecimal num ++ [13, 10]

/-- `Connection::write_value` (src/connection.rs:67-96): serialize a
non-array frame.  `none` records the `unreachable!` panic on a nested
`Array`. -/
def write_value : Frame → Option (List Nat)
  | .simple s => some (43 :: (s ++ [13, 10]))
  | .error s => some (45 :: (s ++ [13, 10]))
  | .integer num => some (58 :: write_decimal num)
  | .bulk val => some (36 :: (write_decimal (val.length : Int) ++ val ++ [13, 10]))
  | .null => some [36, 45, 49, 13, 10]
  | .array _ => none

/-- Serialization of a list of frames by `write_value`, in order. -/
def writeValues : List Frame → Option (List Nat)
  | [] => some []
  | f :: fs =>
    match write_value f, writeValues fs with
    | some b, some bs => some (b ++ bs)
    | _, _ => none

/-- `Connection::write_frame` (src/connection.rs:49-64): an array is
written as `*<n>\r\n` followed by each element through `write_value`;
any other frame goes through `write_value` directly. -/
def write_frame : Frame → Option (List Nat)
  | .array fs =>
    match writeValues fs with
    | some body => some (42 :: (write_decimal (fs.length : Int) ++ body))
    | none => none
  | f => write_value f

/-- Result of `Connection::read_frame` (src/connection.rs:24-47).
`gotFrame` returns the frame together with the remaining buffered bytes
and unread chunks; `cleanClose` is `Ok(None)` (peer closed with an empty
buffer); `resetErr` is the "connection reset by peer" error (peer closed
with bytes still buffered); `protoErr` propagates a frame protocol
error; `panicked` propagates a `Frame::parse` panic. -/
inductive ReadRes where
  | gotFrame (f : Frame) (buffer : List Nat) (chunks : List (List Nat))
  | cleanClose
  | resetErr
  | protoErr
  | panicked
  | outOfFuel

/-- `Connection::read_frame` (src/connection.rs:24-47): loop { if the
buffer is nonempty, try `Frame::parse`; on success consume and return;
on `Incomplete` read the next chunk from the socket; a read of zero
bytes means the peer closed.  `chunks` models the successive nonempty
socket reads; the end of the list is end-of-stream. -/
def read_frame : Nat → List Nat → List (List Nat) → ReadRes
  | 0, _, _ => .outOfFuel
  | fuel + 1, buffer, chunks =>
    if buffer = [] then
      match chunks with
      | [] => .cleanClose
      | c :: rest => read_frame fuel c rest
    else
      match Frame.parse buffer with
      | .ok adv f => .gotFrame f (buffer.drop adv) chunks
      | .incomplete =>
        match chunks with
        | [] => .resetErr
        | c :: rest => read_frame fuel (buffer ++ c) rest
      | .protoErr => .protoErr
      | .panicked => .panicked
      | .fuelOut => .outOfFuel

/-! ### Lemmas about the line scanner and decimal formatting -/

theorem crlfIdx_append_crlf (s t : List Nat) (h : crlfIdx s = none) :
    crlfIdx (s ++ 13 :: 10 :: t) = some s.length := by
  induction s with
  | nil => simp [crlfIdx]
  | cons a s ih =>
    match s, ih with
    | [], _ => simp [crlfIdx]
    | b :: s', ih =>
      have hab : ¬(a = 13 ∧ b = 10) := by
        intro hc
        simp [crlfIdx, hc.1, hc.2] at h
      have htail : crlfIdx (b :: s') = none := by
        by_contra hne
        rcases Option.ne_none_iff_exists'.mp hne with ⟨i, hi⟩
        simp [crlfIdx, hab, hi] at h
      have := ih htail
      simp only [List.cons_append] at this ⊢
      simp [crlfIdx, hab, this]

theorem crlfIdx_none_of_no13 (s : List Nat) (h : ∀ x ∈ s, x ≠ 13) :
    crlfIdx s = none := by
  induction s with
  | nil => simp [crlfIdx]
  | cons a s ih =>
    match s with
    | [] => simp [crlfIdx]
    | b :: s' =>
      have ha : a ≠ 13 := h a (by simp)
      have := ih (fun x hx => h x (by simp [hx]))
      simp [crlfIdx, ha, this]

theorem get_line_cons (a : Nat) (l : List Nat) :
    get_line (a :: l) =
      (match crlfIdx (a :: l) with
        | some i => LineRes.found (i + 2) ((a :: l).take i)
        | none => LineRes.noLine) := rfl

theorem get_line_append_crlf (s t : List Nat) (h : crlfIdx s = none) :
    get_line (s ++ 13 :: 10 :: t) = .found (s.length + 2) s := by
  have hidx := crlfIdx_append_crlf s t h
  have htake : (s ++ 13 :: 10 :: t).take s.length = s := List.take_left _ _
  cases s with
  | nil =>
    simp only [List.nil_append, List.length_nil] at hidx ⊢
    rw [get_line_cons, hidx]
    simp
  | cons a s' =>
    simp only [List.cons_append] at hidx htake ⊢
    rw [get_line_cons, hidx]
    simp only [htake]

theorem natDigitsGo_append (fuel n : Nat) (tail : List Nat) :
    natDigitsGo fuel n tail = natDigitsGo fuel n [] ++ tail := by
  induction fuel generalizing n tail with
  | zero => simp [natDigitsGo]
  | succ fuel ih =>
    by_cases hn : n = 0
    · simp [natDigitsGo, hn]
    · rw [natDigitsGo, if_neg hn, natDigitsGo, if_neg hn]
      rw [ih (n / 10) ((n % 10 + 48) :: tail), ih (n / 10) [n % 10 + 48]]
      simp

theorem natDigitsGo_mem (fuel n : Nat) (tail : List Nat) (x : Nat)
    (hx : x ∈ natDigitsGo fuel n tail) : (48 ≤ x ∧ x ≤ 57) ∨ x ∈ tail := by
  induction fuel generalizing n tail with
  | zero => simp [natDigitsGo] at hx; exact Or.inr hx
  | succ fuel ih =>
    by_cases hn : n = 0
    · simp [natDigitsGo, hn] at hx
      exact Or.inr hx
    · rw [natDigitsGo, if_neg hn] at hx
      rcases ih (n / 10) _ hx with h | h
      · exact Or.inl h
      · rcases List.mem_cons.mp h with h' | h'
        · refine Or.inl ?_
          have : n % 10 < 10 := Nat.mod_lt _ (by norm_num)
          omega
        · exact Or.inr h'

theorem natDigits_mem (n x : Nat) (hx : x ∈ natDigits n) : 48 ≤ x ∧ x ≤ 57 := by
  unfold natDigits at hx
  by_cases hn : n = 0
  · simp [hn] at hx
    omega
  · rw [if_neg hn] at hx
    rcases natDigitsGo_mem n n [] x hx with h | h
    · exact h
    · simp at h

theorem natDigits_ne_nil (n : Nat) : natDigits n ≠ [] := by
  unfold natDigits
  by_cases hn : n = 0
  · simp [hn]
  · rw [if_neg hn]
    match hfuel : n, hn with
    | m + 1, _ =>
      rw [natDigitsGo, if_neg (by omega)]
      rw [natDigitsGo_append]
      simp

theorem intToDecimal_mem (v : Int) (x : Nat) (hx : x ∈ intToDecimal v) :
    x = 45 ∨ (48 ≤ x ∧ x ≤ 57) := by
  unfold intToDecimal at hx
  by_cases hv : v < 0
  · rw [if_pos hv] at hx
    rcases List.mem_cons.mp hx with h | h
    · exact Or.inl h
    · exact Or.inr (natDigits_mem _ _ h)
  · rw [if_neg hv] at hx
    exact Or.inr (natDigits_mem _ _ hx)

theorem crlfIdx_intToDecimal (v : Int) : crlfIdx (intToDecimal v) = none := by
  refine crlfIdx_none_of_no13 _ (fun x hx => ?_)
  rcases intToDecimal_mem v x hx with h | h <;> omega

theorem natDigitsGo_succ_len (fuel n : Nat) (hn : n ≠ 0) :
    (natDigitsGo (fuel + 1) n []).length =
      (natDigitsGo fuel (n / 10) []).length + 1 := by
  rw [natDigitsGo, if_neg hn, natDigitsGo_append]
  simp

theorem atoiPos_natDigitsGo (fuel : Nat) :
    ∀ (n : Nat) (tail : List Nat) (a : Int), n ≤ fuel → 0 ≤ a →
      a * 10 ^ (natDigitsGo fuel n []).length + n ≤ i64max →
      atoiPos (natDigitsGo fuel n tail) a =
        atoiPos tail (a * 10 ^ (natDigitsGo fuel n []).length + n) := by
  induction fuel with
  | zero =>
    intro n tail a hn _ _
    have : n = 0 := by omega
    subst this
    simp [natDigitsGo]
  | succ fuel ih =>
    intro n tail a hn ha hbound
    by_cases hn0 : n = 0
    · subst hn0
      simp [natDigitsGo]
    · have hlen := natDigitsGo_succ_len fuel n hn0
      set L := (natDigitsGo fuel (n / 10) []).length with hL
      have hpow : (10 : Int) ^ (L + 1) = 10 ^ L * 10 := pow_succ 10 L
      have hdm : 10 * (n / 10) + n % 10 = n := Nat.div_add_mod n 10
      have hple : (0 : Int) ≤ a * 10 ^ L :=
        mul_nonneg ha (pow_nonneg (by norm_num) L)
      have hdiv : n / 10 ≤ fuel := by
        have : n / 10 < n := Nat.div_lt_self (by omega) (by norm_num)
        omega
      have hbound' : a * 10 ^ L + (n / 10 : Nat) ≤ i64max := by
        rw [hlen, hpow] at hbound
        have h1 : ((10 * (n / 10) + n % 10 : Nat) : Int) = (n : Int) := by
          exact_mod_cast hdm
        push_cast at h1 ⊢
        nlinarith [Nat.zero_le (n % 10), Nat.zero_le (n / 10)]
      rw [natDigitsGo, if_neg hn0]
      rw [ih (n / 10) ((n % 10 + 48) :: tail) a hdiv ha hbound']
      have hdig : digit_of (n % 10 + 48) = some (n % 10) := by
        have : n % 10 < 10 := Nat.mod_lt _ (by norm_num)
        unfold digit_of
        rw [if_pos (by omega)]
        norm_num
      rw [atoiPos, hdig]
      have hacc : (a * 10 ^ L + (n / 10 : Nat)) * 10 + ((n % 10 : Nat) : Int) =
          a * 10 ^ (natDigitsGo (fuel + 1) n []).length + n := by
        rw [hlen, hpow]
        have h1 : ((10 * (n / 10) + n % 10 : Nat) : Int) = (n : Int) := by
          exact_mod_cast hdm
        push_cast at h1 ⊢
        linarith
      simp only [hacc]
      rw [if_neg (by omega)]

theorem atoiNeg_natDigitsGo (fuel : Nat) :
    ∀ (n : Nat) (tail : List Nat) (a : Int), n ≤ fuel → a ≤ 0 →
      i64min ≤ a * 10 ^ (natDigitsGo fuel n []).length - n →
      atoiNeg (natDigitsGo fuel n tail) a =
        atoiNeg tail (a * 10 ^ (natDigitsGo fuel n []).length - n) := by
  induction fuel with
  | zero =>
    intro n tail a hn _ _
    have : n = 0 := by omega
    subst this
    simp [natDigitsGo]
  | succ fuel ih =>
    intro n tail a hn ha hbound
    by_cases hn0 : n = 0
    · subst hn0
      simp [natDigitsGo]
    · have hlen := natDigitsGo_succ_len fuel n hn0
      set L := (natDigitsGo fuel (n / 10) []).length with hL
      have hpow : (10 : Int) ^ (L + 1) = 10 ^ L * 10 := pow_succ 10 L
      have hdm : 10 * (n / 10) + n % 10 = n := Nat.div_add_mod n 10
      have hple : a * 10 ^ L ≤ 0 :=
        mul_nonpos_of_nonpos_of_nonneg ha (pow_nonneg (by norm_num) L)
      have hdiv : n / 10 ≤ fuel := by
        have : n / 10 < n := Nat.div_lt_self (by omega) (by norm_num)
        omega
      have hbound' : i64min ≤ a * 10 ^ L - (n / 10 : Nat) := by
        rw [hlen, hpow] at hbound
        have h1 : ((10 * (n / 10) + n % 10 : Nat) : Int) = (n : Int) := by
          exact_mod_cast hdm
        push_cast at h1 ⊢
        nlinarith [Nat.zero_le (n % 10), Nat.zero_le (n / 10)]
      rw [natDigitsGo, if_neg hn0]
      rw [ih (n / 10) ((n % 10 + 48) :: tail) a hdiv ha hbound']
      have hdig : digit_of (n % 10 + 48) = some (n % 10) := by
        have : n % 10 < 10 := Nat.mod_lt _ (by norm_num)
        unfold digit_of
        rw [if_pos (by omega)]
        norm_num
      rw [atoiNeg, hdig]
      have hacc : (a * 10 ^ L - (n / 10 : Nat)) * 10 - ((n % 10 : Nat) : Int) =
          a * 10 ^ (natDigitsGo (fuel + 1) n []).length - n := by
        rw [hlen, hpow]
        have h1 : ((10 * (n / 10) + n % 10 : Nat) : Int) = (n : Int) := by
          exact_mod_cast hdm
        push_cast at h1 ⊢
        linarith
      simp only [hacc]
      rw [if_neg (by omega)]

theorem atoi_natDigits (n : Nat) (h : (n : Int) ≤ i64max) :
    atoi (natDigits n) = some (n : Int) := by
  by_cases hn : n = 0
  · subst hn
    decide
  · have hne : natDigits n ≠ [] := natDigits_ne_nil n
    have hgo := atoiPos_natDigitsGo n n [] 0 (le_refl n) (le_refl 0)
      (by simpa using h)
    unfold natDigits at hne ⊢
    rw [if_neg hn] at hne ⊢
    match hl : natDigitsGo n n [], hne with
    | b :: rest, _ =>
      have hb : 48 ≤ b ∧ b ≤ 57 := by
        have hmem := natDigitsGo_mem n n [] b (by rw [hl]; simp)
        rcases hmem with h' | h'
        · exact h'
        · simp at h'
      rw [hl] at hgo
      simp only [atoi]
      rw [if_neg (by omega), if_neg (by omega), hgo]
      simp [atoiPos]

theorem atoi_intToDecimal (v : Int) (h1 : i64min ≤ v) (h2 : v ≤ i64max) :
    atoi (intToDecimal v) = some v := by
  by_cases hv : v < 0
  · unfold intToDecimal
    rw [if_pos hv]
    set m := (-v).toNat with hm
    have hmv : (m : Int) = -v := Int.toNat_of_nonneg (by omega)
    have hm0 : m ≠ 0 := by omega
    have hne : natDigits m ≠ [] := natDigits_ne_nil m
    have hgo := atoiNeg_natDigitsGo m m [] 0 (le_refl m) (le_refl 0)
      (by simp only [zero_mul, zero_sub]; omega)
    unfold natDigits at hne ⊢
    rw [if_neg hm0] at hne ⊢
    match hl : natDigitsGo m m [], hne with
    | b :: rest, _ =>
      rw [hl] at hgo
      have e1 : atoi (45 :: b :: rest) = atoiNeg (b :: rest) 0 := by
        simp [atoi]
      rw [e1, hgo]
      simp only [atoiNeg, zero_mul, zero_sub]
      congr 1
      omega
  · unfold intToDecimal
    rw [if_neg hv]
    have h := atoi_natDigits v.toNat
      (by rw [Int.toNat_of_nonneg (by omega)]; exact h2)
    rw [h, Int.toNat_of_nonneg (by omega)]

theorem get_decimal_intToDecimal (v : Int) (t : List Nat) (h1 : i64min ≤ v)
    (h2 : v ≤ i64max) :
    get_decimal (intToDecimal v ++ 13 :: 10 :: t) =
      .found ((intToDecimal v).length + 2) v := by
  unfold get_decimal
  rw [get_line_append_crlf _ _ (crlfIdx_intToDecimal v)]
  simp [atoi_intToDecimal v h1 h2]

/-! ### Round-trip of the codec -/

/-- Well-formedness of a non-array frame for serialization: `Simple` and
`Error` payloads are valid UTF-8 (automatic for a Rust `String`) and
contain no CRLF sequence; integers are in `i64` range (automatic for a
Rust `i64`); bulk payloads fit an `i64` length (automatic for a Rust
`Vec`).  Arrays are excluded: `write_value` panics on them. -/
def wfV : Frame → Prop
  | .simple s => validUtf8 s = true ∧ crlfIdx s = none
  | .error s => validUtf8 s = true ∧ crlfIdx s = none
  | .integer v => i64min ≤ v ∧ v ≤ i64max
  | .bulk d => (d.length : Int) ≤ i64max
  | .null => True
  | .array _ => False

/-- Well-formedness of a frame for `write_frame`: either a well-formed
non-array frame, or an array of well-formed non-array elements (nested
arrays hit the `unreachable!` in `write_value`). -/
def wfFrame : Frame → Prop
  | .array fs => ((fs.length : Int) ≤ i64max) ∧ ∀ f ∈ fs, wfV f
  | f => wfV f

theorem drop_len_append (A B : List Nat) (n : Nat) (h : n = A.length) :
    (A ++ B).drop n = B := by
  subst h
  induction A with
  | nil => rfl
  | cons a A ih => simp [ih]

theorem parseF_write_value (F : Frame) (bs rest : List Nat) (fuel : Nat)
    (hwf : wfV F) (hw : write_value F = some bs) :
    Frame.parseF (fuel + 1) (bs ++ rest) = .ok bs.length F := by
  cases F with
  | simple s =>
    obtain ⟨hu, hc⟩ := hwf
    have hbs : bs = 43 :: (s ++ [13, 10]) := (Option.some.inj hw).symm
    subst hbs
    have harr : (43 :: (s ++ [13, 10])) ++ rest = 43 :: (s ++ 13 :: 10 :: rest) := by
      simp
    rw [harr, Frame.parseF, if_pos rfl, get_line_append_crlf s rest hc]
    simp [hu]
    omega
  | error s =>
    obtain ⟨hu, hc⟩ := hwf
    have hbs : bs = 45 :: (s ++ [13, 10]) := by
      simpa [write_value] using hw.symm
    subst hbs
    have harr : (45 :: (s ++ [13, 10])) ++ rest = 45 :: (s ++ 13 :: 10 :: rest) := by
      simp
    rw [harr, Frame.parseF, if_neg (by omega), if_pos rfl,
      get_line_append_crlf s rest hc]
    simp [hu]
    omega
  | integer v =>
    obtain ⟨h1, h2⟩ := hwf
    have hbs : bs = 58 :: (intToDecimal v ++ [13, 10]) := by
      simpa [write_value, write_decimal] using hw.symm
    subst hbs
    have harr : (58 :: (intToDecimal v ++ [13, 10])) ++ rest =
        58 :: (intToDecimal v ++ 13 :: 10 :: rest) := by
      simp
    rw [harr, Frame.parseF, if_neg (by omega), if_neg (by omega), if_pos rfl,
      get_decimal_intToDecimal v rest h1 h2]
    simp
    omega
  | bulk d =>
    have h2 : (d.length : Int) ≤ i64max := hwf
    have hmin : i64min ≤ (d.length : Int) := by unfold i64min; omega
    have hbs : bs = 36 :: (intToDecimal (d.length : Int) ++ [13, 10] ++ d ++ [13, 10]) := by
      simpa [write_value, write_decimal] using hw.symm
    subst hbs
    have harr : (36 :: (intToDecimal (d.length : Int) ++ [13, 10] ++ d ++ [13, 10])) ++ rest =
        36 :: (intToDecimal (d.length : Int) ++ 13 :: 10 :: (d ++ 13 :: 10 :: rest)) := by
      simp
    rw [harr, Frame.parseF, if_neg (by omega), if_neg (by omega),
      if_neg (by omega), if_pos rfl,
      get_decimal_intToDecimal (d.length : Int) _ hmin h2]
    have hdrop : (intToDecimal (d.length : Int) ++ 13 :: 10 :: (d ++ 13 :: 10 :: rest)).drop
        ((intToDecimal (d.length : Int)).length + 2) = d ++ 13 :: 10 :: rest := by
      rw [show intToDecimal (d.length : Int) ++ 13 :: 10 :: (d ++ 13 :: 10 :: rest) =
        (intToDecimal (d.length : Int) ++ [13, 10]) ++ (d ++ 13 :: 10 :: rest) by simp]
      exact drop_len_append _ _ _ (by simp)
    have hne1 : ¬((d.length : Int) = -1) := by omega
    have hne2 : ¬((d.length : Int) < 0) := by omega
    have hgd1 : (d ++ 13 :: 10 :: rest).getD d.length 0 = 13 := by
      rw [List.getD_append_right _ _ _ _ (le_refl _)]
      simp
    have hgd2 : (d ++ 13 :: 10 :: rest).getD (d.length + 1) 0 = 10 := by
      rw [List.getD_append_right _ _ _ _ (by omega)]
      simp
    simp only [hne1, hne2, if_false, hdrop, Int.toNat_natCast]
    rw [if_pos ⟨by simp, hgd1, hgd2⟩, List.take_left]
    congr 1
    simp
    omega
  | null =>
    have hbs : bs = [36, 45, 49, 13, 10] := by
      simpa [write_value] using hw.symm
    subst hbs
    have harr : ([36, 45, 49, 13, 10] : List Nat) ++ rest =
        36 :: ([45, 49] ++ 13 :: 10 :: rest) := by
      simp
    have hdec : get_decimal ([45, 49] ++ 13 :: 10 :: rest) = .found 4 (-1) := by
      unfold get_decimal
      rw [get_line_append_crlf [45, 49] rest (by decide)]
      rfl
    rw [harr, Frame.parseF, if_neg (by omega), if_neg (by omega),
      if_neg (by omega), if_pos rfl, hdec]
    rfl
  | array fs => exact absurd hwf (by simp [wfV])

theorem write_value_length_pos (F : Frame) (bs : List Nat)
    (h : write_value F = some bs) : 1 ≤ bs.length := by
  cases F <;> simp [write_value, write_decimal] at h <;> subst h <;> simp

theorem writeValues_le_length (fs : List Frame) (body : List Nat)
    (h : writeValues fs = some body) : fs.length ≤ body.length := by
  induction fs generalizing body with
  | nil =>
    simp [writeValues] at h
    subst h
    simp
  | cons f fs ih =>
    cases hwv : write_value f with
    | none => simp [writeValues, hwv] at h
    | some b =>
      cases hws : writeValues fs with
      | none => simp [writeValues, hwv, hws] at h
      | some bs2 =>
        have hb : body = b ++ bs2 := by
          rw [writeValues, hwv, hws] at h
          exact (Option.some.inj h).symm
        subst hb
        have h1 := write_value_length_pos f b hwv
        have h2 := ih bs2 hws
        simp
        omega

theorem parseManyF_writeValues (fs : List Frame) :
    ∀ (body rest : List Nat) (fuel : Nat),
      (∀ f ∈ fs, wfV f) → writeValues fs = some body →
      fs.length + 1 ≤ fuel →
      Frame.parseManyF fuel fs.length (body ++ rest) = .ok body.length fs := by
  induction fs with
  | nil =>
    intro body rest fuel _ hbody hfuel
    have hb : body = [] := by
      simpa [writeValues] using hbody.symm
    subst hb
    obtain ⟨m, rfl⟩ : ∃ m, fuel = m + 1 := ⟨fuel - 1, by omega⟩
    rfl
  | cons f fs ih =>
    intro body rest fuel hwf hbody hfuel
    cases hwv : write_value f with
    | none => simp [writeValues, hwv] at hbody
    | some b =>
      cases hws : writeValues fs with
      | none => simp [writeValues, hwv, hws] at hbody
      | some bs2 =>
        have hb : body = b ++ bs2 := by
          rw [writeValues, hwv, hws] at hbody
          exact (Option.some.inj hbody).symm
        subst hb
        obtain ⟨m, rfl⟩ : ∃ m, fuel = m + 1 := ⟨fuel - 1, by omega⟩
        obtain ⟨m2, rfl⟩ : ∃ m2, m = m2 + 1 := ⟨m - 1, by simp at hfuel; omega⟩
        simp only [List.length_cons]
        rw [Frame.parseManyF]
        have harr : (b ++ bs2) ++ rest = b ++ (bs2 ++ rest) := by simp
        rw [harr, parseF_write_value f b (bs2 ++ rest) m2 (hwf f (by simp)) hwv]
        simp only [drop_len_append b (bs2 ++ rest) b.length rfl,
          ih bs2 rest (m2 + 1) (fun g hg => hwf g (by simp [hg])) hws
            (by simp at hfuel; omega)]
        simp

/-- C1 (amended): codec round-trip.  For every frame `F` that contains
no array directly inside an array (serialization of those panics via
`unreachable!`), whose `Simple`/`Error` payloads are valid UTF-8 and
contain no CRLF sequence, whose integers are in `i64` range and whose
bulk/array lengths fit an `i64` (all automatic for Rust's types except
the CRLF-freedom), parsing the serialization of `F` returns exactly
`(len, F)` where `len` is the byte length of the serialization.  In
particular `Null` nested inside `Array` round-trips fine. -/
theorem c1_codec_roundtrip_amended (F : Frame) (bs : List Nat)
    (hwf : wfFrame F) (hw : write_frame F = some bs) :
    Frame.parse bs = .ok bs.length F := by
  cases F with
  | array fs =>
    obtain ⟨hlen, hels⟩ := hwf
    cases hws : writeValues fs with
    | none => rw [write_frame, hws] at hw; exact absurd hw (by simp)
    | some body =>
      have hb : bs = 42 :: (intToDecimal (fs.length : Int) ++ [13, 10] ++ body) := by
        rw [write_frame, hws] at hw
        have := (Option.some.inj hw).symm
        rw [this]
        simp [write_decimal]
      subst hb
      have hmin : i64min ≤ (fs.length : Int) := by unfold i64min; omega
      have hble := writeValues_le_length fs body hws
      have harr : (42 : Nat) :: (intToDecimal (fs.length : Int) ++ [13, 10] ++ body) =
          42 :: (intToDecimal (fs.length : Int) ++ 13 :: 10 :: body) := by
        simp
      rw [Frame.parse, harr, Frame.parseF, if_neg (by omega), if_neg (by omega),
        if_neg (by omega), if_neg (by omega), if_pos rfl,
        get_decimal_intToDecimal (fs.length : Int) _ hmin hlen]
      have hne2 : ¬((fs.length : Int) < 0) := by omega
      have hdrop : (intToDecimal (fs.length : Int) ++ 13 :: 10 :: body).drop
          ((intToDecimal (fs.length : Int)).length + 2) = body := by
        rw [show intToDecimal (fs.length : Int) ++ 13 :: 10 :: body =
          (intToDecimal (fs.length : Int) ++ [13, 10]) ++ body by simp]
        exact drop_len_append _ _ _ (by simp)
      simp only [hne2, if_false, hdrop, Int.toNat_natCast]
      have hmany := parseManyF_writeValues fs body []
        (42 :: (intToDecimal (fs.length : Int) ++ [13, 10] ++ body)).length
        hels hws (by
          simp only [List.length_cons, List.length_append, List.length_nil]
          omega)
      rw [List.append_nil] at hmany
      rw [show (42 :: (intToDecimal (fs.length : Int) ++ 13 :: 10 :: body)).length =
        (42 :: (intToDecimal (fs.length : Int) ++ [13, 10] ++ body)).length by
          simp only [List.length_cons, List.length_append, List.length_nil]
          omega]
      rw [hmany]
      simp
      omega
  | simple s =>
    have h := parseF_write_value (.simple s) bs [] bs.length hwf hw
    rw [List.append_nil] at h
    exact h
  | error s =>
    have h := parseF_write_value (.error s) bs [] bs.length hwf hw
    rw [List.append_nil] at h
    exact h
  | integer v =>
    have h := parseF_write_value (.integer v) bs [] bs.length hwf hw
    rw [List.append_nil] at h
    exact h
  | bulk d =>
    have h := parseF_write_value (.bulk d) bs [] bs.length hwf hw
    rw [List.append_nil] at h
    exact h
  | null =>
    have h := parseF_write_value .null bs [] bs.length hwf hw
    rw [List.append_nil] at h
    exact h

/-- Witness for C1: a concrete array frame containing a bulk string, a
`Null`, a negative integer and a simple string round-trips through
`write_frame` and `Frame::parse`, consuming exactly the serialized byte
count. -/
theorem c1_codec_roundtrip_amended_witness :
    wfFrame (.array [.bulk [104, 105], .null, .integer (-42), .simple [79, 75]]) ∧
    write_frame (.array [.bulk [104, 105], .null, .integer (-42), .simple [79, 75]]) =
      some [42, 52, 13, 10, 36, 50, 13, 10, 104, 105, 13, 10, 36, 45, 49, 13, 10,
        58, 45, 52, 50, 13, 10, 43, 79, 75, 13, 10] ∧
    Frame.parse [42, 52, 13, 10, 36, 50, 13, 10, 104, 105, 13, 10, 36, 45, 49, 13, 10,
        58, 45, 52, 50, 13, 10, 43, 79, 75, 13, 10] =
      .ok ([42, 52, 13, 10, 36, 50, 13, 10, 104, 105, 13, 10, 36, 45, 49, 13, 10,
        58, 45, 52, 50, 13, 10, 43, 79, 75, 13, 10] : List Nat).length
        (.array [.bulk [104, 105], .null, .integer (-42), .simple [79, 75]]) := by
  have hwf : wfFrame (.array [.bulk [104, 105], .null, .integer (-42), .simple [79, 75]]) := by
    refine ⟨by decide, ?_⟩
    intro f hf
    simp only [List.mem_cons, List.not_mem_nil, or_false] at hf
    rcases hf with rfl | rfl | rfl | rfl <;> simp only [wfV] <;> decide
  exact ⟨hwf, rfl, c1_codec_roundtrip_amended _ _ hwf rfl⟩

/-- Counterexample for C1 as frozen: the simple string "a\r\nb" (bytes
[97, 13, 10, 98]) is a legal Rust `String` and contains no `Null` inside
an `Array`, yet parsing its serialization consumes 4 of the 7 bytes and
returns `Simple "a"`, not the original frame.  Moreover an array nested
directly inside an array cannot be serialized at all (`write_value`
panics via `unreachable!`). -/
theorem c1_codec_roundtrip_counterexample :
    write_frame (.simple [97, 13, 10, 98]) = some [43, 97, 13, 10, 98, 13, 10] ∧
    Frame.parse [43, 97, 13, 10, 98, 13, 10] ≠
      .ok ([43, 97, 13, 10, 98, 13, 10] : List Nat).length (.simple [97, 13, 10, 98]) ∧
    Frame.parse [43, 97, 13, 10, 98, 13, 10] = .ok 4 (.simple [97]) ∧
    write_frame (.array [.array []]) = none := by
  refine ⟨rfl, ?_, rfl, rfl⟩
  intro h
  have h2 : ParseResult.ok 4 (Frame.simple [97]) =
      ParseResult.ok 7 (Frame.simple [97, 13, 10, 98]) := h
  injection h2 with h3 h4
  omega

/-- C2: `Frame::parse` does not satisfy the claimed total-safety
contract: it panics on the empty buffer (`get_u8`), panics on a one-byte
buffer such as `"+"` (integer-underflow in `get_line`), panics on a
first byte outside the five tag bytes (the `unimplemented!` arm, here
`"x"` = 120), and reports a complete-but-malformed decimal line such as
`":ab\r\n"` as `Incomplete` instead of a protocol error. -/
theorem c2_parse_divergence :
    Frame.parse [] = .panicked ∧
    Frame.parse [43] = .panicked ∧
    Frame.parse [120] = .panicked ∧
    Frame.parse [58, 97, 98, 13, 10] = .incomplete :=
  ⟨rfl, rfl, rfl, rfl⟩

/-- C8: partial-read resilience fails in the code.  Feeding the
serialization of `Simple "OK"` (`"+OK\r\n"`) one byte at a time makes
`read_frame` panic on the very first byte, because `Frame::parse` on the
one-byte buffer `"+"` calls `get_line` on an empty remainder, whose
`0..buf.len()-1` loop underflows.  With the frame delivered in a single
read it succeeds; a clean close with an empty buffer yields `None` and a
close with buffered bytes yields the connection-reset error, as claimed. -/
theorem c8_read_frame_divergence :
    write_frame (.simple [79, 75]) = some [43, 79, 75, 13, 10] ∧
    read_frame 10 [] [[43], [79], [75], [13], [10]] = .panicked ∧
    read_frame 2 [] [[43, 79, 75, 13, 10]] = .gotFrame (.simple [79, 75]) [] [] ∧
    read_frame 1 [] [] = .cleanClose ∧
    read_frame 2 [] [[43, 79]] = .resetErr :=
  ⟨rfl, rfl, rfl, rfl, rfl⟩

/-! ### The shared keyspace state (src/db.rs) -/

/-- Keys and channel names: the UTF-8 bytes of the Rust `String`
(comparison of Rust `String`s is bytewise lexicographic). -/
abbrev Key := List Nat

/-- `Entry` (src/db.rs:30-33): value bytes plus optional absolute expiry
(`Instant` modelled as `Nat` milliseconds). -/
structure EntryM where
  data : List Nat
  expires_at : Option Nat

/-- Bytewise lexicographic strict order on keys (Rust `String` `Ord`). -/
def bytesLt : List Nat → List Nat → Bool
  | [], [] => false
  | [], _ :: _ => true
  | _ :: _, [] => false
  | a :: as2, b :: bs2 =>
    if a < b then true else if b < a then false else bytesLt as2 bs2

/-- Strict order on `(Instant, String)` pairs: lexicographic, timestamp
first, key as tiebreaker (the `BTreeSet<(Instant, String)>` order,
spec invariant 3). -/
def pairLt (p q : Nat × Key) : Bool :=
  if p.1 < q.1 then true else if q.1 < p.1 then false else bytesLt p.2 q.2

/-- Insertion into the ordered, duplicate-free expiration index
(`BTreeSet::insert`): the list is kept in ascending `pairLt` order. -/
def insertPair (p : Nat × Key) : List (Nat × Key) → List (Nat × Key)
  | [] => [p]
  | q :: rest =>
    if pairLt p q then p :: q :: rest
    else if p = q then q :: rest
    else q :: insertPair p rest

/-- `State` (src/db.rs:22-28): the keyspace (`HashMap` as a function),
the expiration index (`BTreeSet` as an ascending list), the topic map
(`HashMap<String, broadcast::Sender>` as a function to the current live
receiver count of each sender), and the shutdown flag. -/
structure DbState where
  entries : Key → Option EntryM
  expirations : List (Nat × Key)
  pub_sub : Key → Option Nat
  shutdown : Bool

/-- `State::new` (src/db.rs:168-175). -/
def initState : DbState :=
  { entries := fun _ => none
    expirations := []
    pub_sub := fun _ => none
    shutdown := false }

/-- `Db::get` (src/db.rs:60-63): look the key up in `entries` and return
a clone of the data; the expiry is not consulted. -/
def dbGet (s : DbState) (key : Key) : Option (List Nat) :=
  (s.entries key).map EntryM.data

/-- `Db::set` (src/db.rs:65-94): compute the absolute expiry
`now + duration`, insert the new entry, remove the old entry's
expiration pair if it had one, and insert the new pair if there is one
(the sweeper notification has no effect on the state). -/
def dbSet (s : DbState) (now : Nat) (key : Key) (value : List Nat)
    (expire : Option Nat) : DbState :=
  let expires_at := expire.map (fun duration => now + duration)
  let old := s.entries key
  let entries2 := fun k => if k = key then some ⟨value, expires_at⟩ else s.entries k
  let exps1 :=
    match old with
    | some oldE =>
      match oldE.expires_at with
      | some t => s.expirations.erase (t, key)
      | none => s.expirations
    | none => s.expirations
  let exps2 :=
    match expires_at with
    | some t => insertPair (t, key) exps1
    | none => exps1
  { s with entries := entries2, expirations := exps2 }

/-- `Db::subscribe` (src/db.rs:103-114): take a fresh receiver on an
existing topic's sender, or lazily create the topic with one receiver. -/
def dbSubscribe (s : DbState) (channel : Key) : DbState :=
  match s.pub_sub channel with
  | some n => { s with pub_sub := fun c => if c = channel then some (n + 1) else s.pub_sub c }
  | none => { s with pub_sub := fun c => if c = channel then some 1 else s.pub_sub c }

/-- `broadcast::Sender::send` returns `Ok(receiver_count)` when at least
one receiver exists and `Err` otherwise; `publish` turns `Err` into 0
via `unwrap_or(0)`. -/
def broadcastSend (receivers : Nat) : Nat :=
  if receivers = 0 then 0 else receivers

/-- `Db::publish` (src/db.rs:118-127): look up the sender; absent
channels return 0 without creating an entry; otherwise send and return
the number of receivers.  The state is never modified. -/
def dbPublish (s : DbState) (channel : Key) (_message : List Nat) : Nat × DbState :=
  match s.pub_sub channel with
  | none => (0, s)
  | some n => (broadcastSend n, s)

/-- `Db::shutdown_clean_task` (src/db.rs:96-101): set the shutdown flag
(and wake the sweeper). -/
def dbShutdown (s : DbState) : DbState := { s with shutdown := true }

/-- The loop of `Shared::clean_expired_tasks` (src/db.rs:154-161):
repeatedly look at the smallest pair of the expiration index (the head
of the ascending list); if its timestamp is past `now`, stop and return
it as the next wake time, otherwise remove the entry and the pair. -/
def sweepLoop (entries : Key → Option EntryM) :
    List (Nat × Key) → Nat → Option Nat × (Key → Option EntryM) × List (Nat × Key)
  | [], _ => (none, entries, [])
  | (expiration, key) :: restE, now =>
    if now < expiration then (some expiration, entries, (expiration, key) :: restE)
    else sweepLoop (fun k => if k = key then none else entries k) restE now

/-- `Shared::clean_expired_tasks` (src/db.rs:143-164): under the lock,
return `None` immediately when shut down, otherwise sweep all pairs with
timestamp ≤ now and return the next wake time. -/
def clean_expired_tasks (s : DbState) (now : Nat) : Option Nat × DbState :=
  if s.shutdown then (none, s)
  else
    let r := sweepLoop s.entries s.expirations now
    (r.1, { s with entries := r.2.1, expirations := r.2.2 })

/-- The operations that touch the shared state: `Db::set` (with the
current time and requested duration), `Db::get`, `Db::publish`,
`Db::subscribe`, one sweeper cycle at a given time, and
`Db::shutdown_clean_task`. -/
inductive Op where
  | set (now : Nat) (key : Key) (value : List Nat) (expire : Option Nat)
  | get (key : Key)
  | publish (channel : Key) (message : List Nat)
  | subscribe (channel : Key)
  | sweep (now : Nat)
  | shutdown

/-- Effect of one operation on the shared state. -/
def applyOp (s : DbState) : Op → DbState
  | .set now key value expire => dbSet s now key value expire
  | .get _ => s
  | .publish channel message => (dbPublish s channel message).2
  | .subscribe channel => dbSubscribe s channel
  | .sweep now => (clean_expired_tasks s now).2
  | .shutdown => dbShutdown s

/-- Effect of a sequence of operations. -/
def applyOps (s : DbState) (ops : List Op) : DbState := ops.foldl applyOp s

/-- States reachable from the initial empty state. -/
inductive Reachable : DbState → Prop
  | init : Reachable initState
  | step {s : DbState} (h : Reachable s) (op : Op) : Reachable (applyOp s op)

/-- The expiration-index invariant: a pair `(t, k)` is in the index
exactly when the entry of `k` has `expires_at = t`, and the index is an
ascending (hence duplicate-free) `pairLt` chain. -/
def DbInv (s : DbState) : Prop :=
  (∀ t k, (t, k) ∈ s.expirations ↔
    ∃ e, s.entries k = some e ∧ e.expires_at = some t) ∧
  s.expirations.Pairwise (fun p q => pairLt p q = true)

/-! ### Order lemmas for the expiration index -/

theorem bytesLt_irrefl (a : List Nat) : bytesLt a a = false := by
  induction a with
  | nil => rfl
  | cons x xs ih => simp [bytesLt, ih]

theorem bytesLt_trans (a : List Nat) :
    ∀ b c, bytesLt a b = true → bytesLt b c = true → bytesLt a c = true := by
  induction a with
  | nil =>
    intro b c hab hbc
    cases b with
    | nil => simp [bytesLt] at hab
    | cons y ys =>
      cases c with
      | nil => simp [bytesLt] at hbc
      | cons z zs => simp [bytesLt]
  | cons x xs ih =>
    intro b c hab hbc
    cases b with
    | nil => simp [bytesLt] at hab
    | cons y ys =>
      cases c with
      | nil => simp [bytesLt] at hbc
      | cons z zs =>
        by_cases hxy : x < y
        · by_cases hyz : y < z
          · simp [bytesLt, show x < z by omega]
          · by_cases hzy : z < y
            · rw [bytesLt, if_neg hyz, if_pos hzy] at hbc
              exact absurd hbc (by simp)
            · simp [bytesLt, show x < z by omega]
        · by_cases hyx : y < x
          · rw [bytesLt, if_neg hxy, if_pos hyx] at hab
            exact absurd hab (by simp)
          · by_cases hyz : y < z
            · simp [bytesLt, show x < z by omega]
            · by_cases hzy : z < y
              · rw [bytesLt, if_neg hyz, if_pos hzy] at hbc
                exact absurd hbc (by simp)
              · rw [bytesLt, if_neg hxy, if_neg hyx] at hab
                rw [bytesLt, if_neg hyz, if_neg hzy] at hbc
                rw [bytesLt, if_neg (show ¬x < z by omega),
                  if_neg (show ¬z < x by omega)]
                exact ih ys zs hab hbc

theorem bytesLt_connex (a : List Nat) :
    ∀ b, bytesLt a b = false → a ≠ b → bytesLt b a = true := by
  induction a with
  | nil =>
    intro b hab hne
    cases b with
    | nil => exact absurd rfl hne
    | cons y ys => simp [bytesLt] at hab
  | cons x xs ih =>
    intro b hab hne
    cases b with
    | nil => simp [bytesLt]
    | cons y ys =>
      by_cases hxy : x < y
      · rw [bytesLt, if_pos hxy] at hab
        exact absurd hab (by simp)
      · by_cases hyx : y < x
        · simp [bytesLt, hyx]
        · rw [bytesLt, if_neg hxy, if_neg hyx] at hab
          have hxs : xs ≠ ys := by
            intro hc
            exact hne (by rw [show x = y by omega, hc])
          rw [bytesLt, if_neg hyx, if_neg hxy]
          exact ih ys hab hxs

theorem pairLt_irrefl (p : Nat × Key) : pairLt p p = false := by
  simp [pairLt, bytesLt_irrefl]

theorem pairLt_trans (p q r : Nat × Key) (hpq : pairLt p q = true)
    (hqr : pairLt q r = true) : pairLt p r = true := by
  unfold pairLt at *
  by_cases h1 : p.1 < q.1
  · by_cases h2 : q.1 < r.1
    · rw [if_pos (by omega)]
    · by_cases h3 : r.1 < q.1
      · rw [if_neg h2, if_pos h3] at hqr
        exact absurd hqr (by simp)
      · rw [if_pos (by omega)]
  · by_cases h4 : q.1 < p.1
    · rw [if_neg h1, if_pos h4] at hpq
      exact absurd hpq (by simp)
    · rw [if_neg h1, if_neg h4] at hpq
      by_cases h2 : q.1 < r.1
      · rw [if_pos (by omega)]
      · by_cases h3 : r.1 < q.1
        · rw [if_neg h2, if_pos h3] at hqr
          exact absurd hqr (by simp)
        · rw [if_neg h2, if_neg h3] at hqr
          rw [if_neg (by omega), if_neg (by omega)]
          exact bytesLt_trans _ _ _ hpq hqr

theorem pairLt_connex (p q : Nat × Key) (h : pairLt p q = false) (hne : p ≠ q) :
    pairLt q p = true := by
  unfold pairLt at *
  by_cases h1 : p.1 < q.1
  · rw [if_pos h1] at h
    exact absurd h (by simp)
  · by_cases h2 : q.1 < p.1
    · rw [if_pos h2]
    · rw [if_neg h1, if_neg h2] at h
      rw [if_neg h2, if_neg h1]
      refine bytesLt_connex _ _ h (fun hc => hne ?_)
      exact Prod.ext (by omega) hc

theorem pairLt_fst_le (p q : Nat × Key) (h : pairLt p q = true) : p.1 ≤ q.1 := by
  unfold pairLt at h
  by_cases h1 : p.1 < q.1
  · omega
  · by_cases h2 : q.1 < p.1
    · rw [if_neg h1, if_pos h2] at h
      exact absurd h (by simp)
    · omega

theorem mem_insertPair (p x : Nat × Key) (l : List (Nat × Key)) :
    x ∈ insertPair p l ↔ x = p ∨ x ∈ l := by
  induction l with
  | nil => simp [insertPair]
  | cons q rest ih =>
    unfold insertPair
    by_cases h1 : pairLt p q
    · rw [if_pos h1]
      constructor
      · intro hx
        rcases List.mem_cons.mp hx with rfl | hx2
        · exact Or.inl rfl
        · exact Or.inr hx2
      · intro hx
        rcases hx with rfl | hx2
        · exact List.mem_cons_self _ _
        · exact List.mem_cons_of_mem _ hx2
    · rw [if_neg (by simp [h1])]
      by_cases h2 : p = q
      · subst h2
        rw [if_pos rfl]
        constructor
        · exact Or.inr
        · intro hx
          rcases hx with rfl | hx2
          · exact List.mem_cons_self _ _
          · exact hx2
      · rw [if_neg h2]
        simp only [List.mem_cons, ih]
        tauto

theorem pairwise_insertPair (p : Nat × Key) (l : List (Nat × Key))
    (h : l.Pairwise (fun a b => pairLt a b = true)) :
    (insertPair p l).Pairwise (fun a b => pairLt a b = true) := by
  induction l with
  | nil => simp [insertPair]
  | cons q rest ih =>
    rw [List.pairwise_cons] at h
    obtain ⟨hq, hrest⟩ := h
    unfold insertPair
    by_cases h1 : pairLt p q
    · rw [if_pos h1, List.pairwise_cons]
      refine ⟨?_, List.pairwise_cons.mpr ⟨hq, hrest⟩⟩
      intro x hx
      rcases List.mem_cons.mp hx with rfl | hx'
      · exact h1
      · exact pairLt_trans p q x h1 (hq x hx')
    · rw [if_neg (by simp [h1])]
      by_cases h2 : p = q
      · rw [if_pos h2, List.pairwise_cons]
        exact ⟨hq, hrest⟩
      · rw [if_neg h2, List.pairwise_cons]
        refine ⟨?_, ih hrest⟩
        intro x hx
        rcases (mem_insertPair p x rest).mp hx with heq | hx'
        · rw [heq]
          exact pairLt_connex p q (by simpa using h1) h2
        · exact hq x hx'

theorem nodup_of_pairwise_pairLt (l : List (Nat × Key))
    (h : l.Pairwise (fun a b => pairLt a b = true)) : l.Nodup := by
  have hne : ∀ {a b : Nat × Key}, pairLt a b = true → a ≠ b := by
    intro a b hab hc
    subst hc
    rw [pairLt_irrefl] at hab
    exact absurd hab (by simp)
  exact h.imp hne

/-! ### Preservation of the expiration-index invariant -/

theorem dbInv_init : DbInv initState := by
  constructor
  · intro t k
    simp [initState]
  · simp [initState]

theorem dbInv_set (s : DbState) (now : Nat) (key : Key) (value : List Nat)
    (expire : Option Nat) (h : DbInv s) :
    DbInv (dbSet s now key value expire) := by
  obtain ⟨hiff, hpw⟩ := h
  have hnd := nodup_of_pairwise_pairLt _ hpw
  have hpw1 : ∀ p, (s.expirations.erase p).Pairwise (fun a b => pairLt a b = true) :=
    fun p => hpw.sublist (List.erase_sublist p s.expirations)
  cases hexp : expire with
  | none =>
    cases hold : s.entries key with
    | none =>
      simp only [dbSet, hexp, hold, Option.map_none']
      constructor
      · intro t k
        by_cases hk : k = key
        · subst hk
          rw [hiff t k, hold]
          simp
        · rw [hiff t k]
          simp [hk]
      · exact hpw
    | some oldE =>
      cases holdx : oldE.expires_at with
      | none =>
        simp only [dbSet, hexp, hold, holdx, Option.map_none']
        constructor
        · intro t k
          by_cases hk : k = key
          · subst hk
            rw [hiff t k, hold]
            simp [holdx]
          · rw [hiff t k]
            simp [hk]
        · exact hpw
      | some t1 =>
        simp only [dbSet, hexp, hold, holdx, Option.map_none']
        constructor
        · intro t k
          by_cases hk : k = key
          · subst hk
            constructor
            · intro hm
              obtain ⟨hne, hmem⟩ := (hnd.mem_erase_iff).mp hm
              obtain ⟨e, he, hex⟩ := (hiff t k).mp hmem
              rw [hold] at he
              have he2 : e = oldE := (Option.some.inj he).symm
              subst he2
              rw [holdx] at hex
              exact absurd (by rw [Option.some.inj hex]) hne
            · intro ⟨e, he, hex⟩
              simp at he
              rw [← he] at hex
              simp at hex
          · rw [List.mem_erase_of_ne (by simp [hk]), hiff t k]
            simp [hk]
        · exact hpw1 _
  | some dur =>
    cases hold : s.entries key with
    | none =>
      simp only [dbSet, hexp, hold, Option.map_some']
      constructor
      · intro t k
        by_cases hk : k = key
        · subst hk
          rw [mem_insertPair]
          constructor
          · intro hm
            rcases hm with heq | hm2
            · have ht : t = now + dur := (Prod.mk.injEq _ _ _ _).mp heq |>.1
              exact ⟨⟨value, some (now + dur)⟩, by simp, by simp [ht]⟩
            · obtain ⟨e, he, _⟩ := (hiff t k).mp hm2
              rw [hold] at he
              exact absurd he (by simp)
          · intro ⟨e, he, hex⟩
            simp at he
            rw [← he] at hex
            simp at hex
            exact Or.inl (by rw [hex])
        · rw [mem_insertPair]
          have hne : (t, k) ≠ (now + dur, key) := by simp [hk]
          simp only [hne, false_or]
          rw [hiff t k]
          simp [hk]
      · exact pairwise_insertPair _ _ hpw
    | some oldE =>
      cases holdx : oldE.expires_at with
      | none =>
        simp only [dbSet, hexp, hold, holdx, Option.map_some']
        constructor
        · intro t k
          by_cases hk : k = key
          · subst hk
            rw [mem_insertPair]
            constructor
            · intro hm
              rcases hm with heq | hm2
              · have ht : t = now + dur := (Prod.mk.injEq _ _ _ _).mp heq |>.1
                exact ⟨⟨value, some (now + dur)⟩, by simp, by simp [ht]⟩
              · obtain ⟨e, he, hex⟩ := (hiff t k).mp hm2
                rw [hold] at he
                have he2 : e = oldE := (Option.some.inj he).symm
                subst he2
                rw [holdx] at hex
                exact absurd hex (by simp)
            · intro ⟨e, he, hex⟩
              simp at he
              rw [← he] at hex
              simp at hex
              exact Or.inl (by rw [hex])
          · rw [mem_insertPair]
            have hne : (t, k) ≠ (now + dur, key) := by simp [hk]
            simp only [hne, false_or]
            rw [hiff t k]
            simp [hk]
        · exact pairwise_insertPair _ _ hpw
      | some t1 =>
        simp only [dbSet, hexp, hold, holdx, Option.map_some']
        constructor
        · intro t k
          by_cases hk : k = key
          · subst hk
            rw [mem_insertPair]
            constructor
            · intro hm
              rcases hm with heq | hm2
              · have ht : t = now + dur := (Prod.mk.injEq _ _ _ _).mp heq |>.1
                exact ⟨⟨value, some (now + dur)⟩, by simp, by simp [ht]⟩
              · obtain ⟨hne, hmem⟩ := (hnd.mem_erase_iff).mp hm2
                obtain ⟨e, he, hex⟩ := (hiff t k).mp hmem
                rw [hold] at he
                have he2 : e = oldE := (Option.some.inj he).symm
                subst he2
                rw [holdx] at hex
                exact absurd (by rw [Option.some.inj hex]) hne
            · intro ⟨e, he, hex⟩
              simp at he
              rw [← he] at hex
              simp at hex
              exact Or.inl (by rw [hex])
          · rw [mem_insertPair]
            have hne : (t, k) ≠ (now + dur, key) := by simp [hk]
            simp only [hne, false_or]
            rw [List.mem_erase_of_ne (by simp [hk]), hiff t k]
            simp [hk]
        · exact pairwise_insertPair _ _ (hpw1 _)

theorem dbInv_sweepLoop (exps : List (Nat × Key)) :
    ∀ (entries : Key → Option EntryM) (now : Nat),
      (∀ t k, (t, k) ∈ exps ↔ ∃ e, entries k = some e ∧ e.expires_at = some t) →
      exps.Pairwise (fun p q => pairLt p q = true) →
      (∀ t k, (t, k) ∈ (sweepLoop entries exps now).2.2 ↔
        ∃ e, (sweepLoop entries exps now).2.1 k = some e ∧ e.expires_at = some t) ∧
      (sweepLoop entries exps now).2.2.Pairwise (fun p q => pairLt p q = true) := by
  induction exps with
  | nil =>
    intro entries now hiff hpw
    exact ⟨hiff, hpw⟩
  | cons p rest ih =>
    intro entries now hiff hpw
    obtain ⟨t0, k0⟩ := p
    rw [List.pairwise_cons] at hpw
    obtain ⟨hhead, hrest⟩ := hpw
    by_cases hlt : now < t0
    · rw [show sweepLoop entries ((t0, k0) :: rest) now =
        (some t0, entries, (t0, k0) :: rest) by rw [sweepLoop, if_pos hlt]]
      exact ⟨hiff, List.pairwise_cons.mpr ⟨hhead, hrest⟩⟩
    · rw [show sweepLoop entries ((t0, k0) :: rest) now =
        sweepLoop (fun k => if k = k0 then none else entries k) rest now by
          rw [sweepLoop, if_neg hlt]]
      refine ih _ now ?_ hrest
      intro t k
      by_cases hk : k = k0
      · subst hk
        constructor
        · intro hm
          have hlt2 := hhead _ hm
          obtain ⟨e0, he0, hex0⟩ := (hiff t0 k).mp (by simp)
          obtain ⟨e1, he1, hex1⟩ := (hiff t k).mp (by simp [hm])
          rw [he0] at he1
          have : e1 = e0 := (Option.some.inj he1).symm
          subst this
          rw [hex0] at hex1
          have ht : t = t0 := (Option.some.inj hex1).symm
          subst ht
          rw [pairLt_irrefl] at hlt2
          exact absurd hlt2 (by simp)
        · intro ⟨e, he, _⟩
          simp at he
      · constructor
        · intro hm
          obtain ⟨e, he, hex⟩ := (hiff t k).mp (by simp [hm])
          exact ⟨e, by simp [hk, he], hex⟩
        · intro ⟨e, he, hex⟩
          simp only [if_neg hk] at he
          have := (hiff t k).mpr ⟨e, he, hex⟩
          rcases List.mem_cons.mp this with heq | hm
          · exact absurd (congrArg Prod.snd heq) hk
          · exact hm

theorem dbInv_step (s : DbState) (op : Op) (h : DbInv s) : DbInv (applyOp s op) := by
  cases op with
  | set now key value expire => exact dbInv_set s now key value expire h
  | get _ => exact h
  | publish channel message =>
    have : (dbPublish s channel message).2 = s := by
      unfold dbPublish
      cases s.pub_sub channel <;> rfl
    rw [applyOp, this]
    exact h
  | subscribe channel =>
    obtain ⟨hiff, hpw⟩ := h
    constructor
    · intro t k
      rw [show (applyOp s (Op.subscribe channel)).expirations = s.expirations by
        rw [applyOp]; unfold dbSubscribe; cases s.pub_sub channel <;> rfl]
      rw [show (applyOp s (Op.subscribe channel)).entries = s.entries by
        rw [applyOp]; unfold dbSubscribe; cases s.pub_sub channel <;> rfl]
      exact hiff t k
    · rw [show (applyOp s (Op.subscribe channel)).expirations = s.expirations by
        rw [applyOp]; unfold dbSubscribe; cases s.pub_sub channel <;> rfl]
      exact hpw
  | sweep now =>
    obtain ⟨hiff, hpw⟩ := h
    rw [applyOp]
    unfold clean_expired_tasks
    by_cases hsd : s.shutdown
    · rw [if_pos hsd]
      exact ⟨hiff, hpw⟩
    · rw [if_neg hsd]
      have := dbInv_sweepLoop s.expirations s.entries now hiff hpw
      exact ⟨this.1, this.2⟩
  | shutdown => exact h

theorem dbInv_reachable (s : DbState) (h : Reachable s) : DbInv s := by
  induction h with
  | init => exact dbInv_init
  | step hr op ih => exact dbInv_step _ op ih

/-- C4: the expiration-index invariant.  In every state reachable from
the empty state by any sequence of the shared-state operations, a key
`k` has an entry with `expires_at = t` if and only if `(t, k)` is in the
expiration index; the index has no duplicate pairs and contains each key
at most once.  (Each key appears in `entries` at most once by
construction: `entries` is a map.) -/
theorem c4_expiration_index_invariant (s : DbState) (h : Reachable s) :
    (∀ t k, (t, k) ∈ s.expirations ↔
      ∃ e, s.entries k = some e ∧ e.expires_at = some t) ∧
    s.expirations.Nodup ∧
    (∀ t1 t2 k, (t1, k) ∈ s.expirations → (t2, k) ∈ s.expirations → t1 = t2) := by
  obtain ⟨hiff, hpw⟩ := dbInv_reachable s h
  refine ⟨hiff, nodup_of_pairwise_pairLt _ hpw, ?_⟩
  intro t1 t2 k h1 h2
  obtain ⟨e1, he1, hex1⟩ := (hiff t1 k).mp h1
  obtain ⟨e2, he2, hex2⟩ := (hiff t2 k).mp h2
  rw [he1] at he2
  have : e2 = e1 := (Option.some.inj he2).symm
  subst this
  rw [hex1] at hex2
  exact Option.some.inj hex2

theorem reachable_applyOps (s : DbState) (h : Reachable s) (ops : List Op) :
    Reachable (applyOps s ops) := by
  induction ops generalizing s with
  | nil => exact h
  | cons op rest ih => exact ih _ (.step h op)

/-- Witness for C4: a concrete reachable state (two sets with expiry,
one overwrite, a subscribe and a sweep) satisfies the invariant. -/
theorem c4_expiration_index_invariant_witness :
    Reachable (applyOps initState
      [.set 0 [107] [118] (some 50), .set 2 [108] [119] (some 10),
       .subscribe [99], .sweep 20, .set 30 [107] [120] (some 5)]) ∧
    ((∀ t k, (t, k) ∈ (applyOps initState
      [.set 0 [107] [118] (some 50), .set 2 [108] [119] (some 10),
       .subscribe [99], .sweep 20, .set 30 [107] [120] (some 5)]).expirations ↔
      ∃ e, (applyOps initState
      [.set 0 [107] [118] (some 50), .set 2 [108] [119] (some 10),
       .subscribe [99], .sweep 20, .set 30 [107] [120] (some 5)]).entries k = some e ∧
        e.expires_at = some t) ∧
    (applyOps initState
      [.set 0 [107] [118] (some 50), .set 2 [108] [119] (some 10),
       .subscribe [99], .sweep 20, .set 30 [107] [120] (some 5)]).expirations.Nodup ∧
    (∀ t1 t2 k, (t1, k) ∈ (applyOps initState
      [.set 0 [107] [118] (some 50), .set 2 [108] [119] (some 10),
       .subscribe [99], .sweep 20, .set 30 [107] [120] (some 5)]).expirations →
      (t2, k) ∈ (applyOps initState
      [.set 0 [107] [118] (some 50), .set 2 [108] [119] (some 10),
       .subscribe [99], .sweep 20, .set 30 [107] [120] (some 5)]).expirations → t1 = t2)) := by
  have hr : Reachable (applyOps initState
      [.set 0 [107] [118] (some 50), .set 2 [108] [119] (some 10),
       .subscribe [99], .sweep 20, .set 30 [107] [120] (some 5)]) := by
    exact reachable_applyOps initState .init _
  exact ⟨hr, c4_expiration_index_invariant _ hr⟩

/-! ### One sweep cycle (C5) -/

theorem sweepLoop_spec (exps : List (Nat × Key)) :
    ∀ (entries : Key → Option EntryM) (now : Nat),
      exps.Pairwise (fun p q => pairLt p q = true) →
      (sweepLoop entries exps now).2.2 = exps.filter (fun p => now < p.1) ∧
      (∀ k, (sweepLoop entries exps now).2.1 k =
        if exps.any (fun p => decide (p.1 ≤ now) && decide (p.2 = k)) then none
        else entries k) ∧
      (sweepLoop entries exps now).1 =
        ((exps.filter (fun p => now < p.1)).head?).map Prod.fst := by
  induction exps with
  | nil =>
    intro entries now _
    refine ⟨rfl, ?_, rfl⟩
    intro k
    simp [sweepLoop]
  | cons p rest ih =>
    intro entries now hpw
    obtain ⟨t0, k0⟩ := p
    rw [List.pairwise_cons] at hpw
    obtain ⟨hhead, hrest⟩ := hpw
    by_cases hlt : now < t0
    · rw [show sweepLoop entries ((t0, k0) :: rest) now =
        (some t0, entries, (t0, k0) :: rest) by rw [sweepLoop, if_pos hlt]]
      have hkeep : rest.filter (fun p => now < p.1) = rest := by
        rw [List.filter_eq_self]
        intro a ha
        have := pairLt_fst_le _ _ (hhead a ha)
        simp
        omega
      have hfilter : ((t0, k0) :: rest).filter (fun p => now < p.1) =
          (t0, k0) :: rest := by
        rw [List.filter_cons_of_pos (by simp [hlt]), hkeep]
      refine ⟨hfilter.symm, ?_, by rw [hfilter]; rfl⟩
      intro k
      have hany : (((t0, k0) :: rest).any
          (fun p => decide (p.1 ≤ now) && decide (p.2 = k))) = false := by
        rw [List.any_eq_false]
        intro a ha hc
        rw [Bool.and_eq_true, decide_eq_true_eq, decide_eq_true_eq] at hc
        rcases List.mem_cons.mp ha with rfl | ha2
        · exact absurd hc.1 (by omega)
        · have := pairLt_fst_le _ _ (hhead a ha2)
          exact absurd hc.1 (by omega)
      rw [hany]
      simp
    · rw [show sweepLoop entries ((t0, k0) :: rest) now =
        sweepLoop (fun k => if k = k0 then none else entries k) rest now by
          rw [sweepLoop, if_neg hlt]]
      obtain ⟨ih1, ih2, ih3⟩ := ih (fun k => if k = k0 then none else entries k) now hrest
      have hfilter : ((t0, k0) :: rest).filter (fun p => now < p.1) =
          rest.filter (fun p => now < p.1) := by
        rw [List.filter_cons_of_neg (by simp; omega)]
      refine ⟨by rw [ih1, hfilter], ?_, by rw [ih3, hfilter]⟩
      intro k
      rw [ih2 k]
      have hcons : (((t0, k0) :: rest).any
          (fun p => decide (p.1 ≤ now) && decide (p.2 = k))) =
          ((decide (t0 ≤ now) && decide (k0 = k)) ||
            rest.any (fun p => decide (p.1 ≤ now) && decide (p.2 = k))) := by
        rw [List.any_cons]
      by_cases hk : k = k0
      · have h1 : (decide (t0 ≤ now) && decide (k0 = k)) = true := by
          rw [Bool.and_eq_true, decide_eq_true_eq, decide_eq_true_eq]
          exact ⟨by omega, hk.symm⟩
        rw [hcons, h1]
        simp only [Bool.true_or, if_true]
        by_cases hrestany :
            rest.any (fun p => decide (p.1 ≤ now) && decide (p.2 = k)) = true
        · rw [if_pos hrestany]
        · rw [if_neg hrestany, if_pos hk]
      · have h1 : (decide (t0 ≤ now) && decide (k0 = k)) = false := by
          rw [Bool.and_eq_false_iff]
          refine Or.inr ?_
          rw [decide_eq_false_iff_not]
          exact fun hc => hk hc.symm
        rw [hcons, h1]
        simp only [Bool.false_or]
        by_cases hrestany :
            rest.any (fun p => decide (p.1 ≤ now) && decide (p.2 = k)) = true
        · rw [if_pos hrestany, if_pos hrestany]
        · rw [if_neg hrestany, if_neg hrestany, if_neg hk]

theorem shutdown_monotone (s : DbState) (op : Op) (h : s.shutdown = true) :
    (applyOp s op).shutdown = true := by
  cases op with
  | set now key value expire =>
    simp only [applyOp, dbSet]
    exact h
  | get _ => exact h
  | publish channel message =>
    simp only [applyOp]
    unfold dbPublish
    cases s.pub_sub channel <;> exact h
  | subscribe channel =>
    simp only [applyOp]
    unfold dbSubscribe
    cases s.pub_sub channel <;> exact h
  | sweep now =>
    simp only [applyOp]
    unfold clean_expired_tasks
    rw [if_pos h]
    exact h
  | shutdown => rfl

/-- C5: one expiration sweep at time `now` on a non-shut-down state
removes from `entries` and from the index exactly the pairs with
timestamp ≤ now, leaves every other entry and all topics (and the flag)
unchanged, and returns the smallest remaining timestamp as the next wake
time, or nothing when the remaining index is empty.  If the shutdown
flag is set it returns nothing and removes nothing; and once the flag is
set, no operation ever clears it, so the sweeper loop's
`while !is_shutdown` guard stays false and no new sweep runs. -/
theorem c5_sweep_cycle (s : DbState) (now : Nat) (h : DbInv s) :
    (s.shutdown = false →
      (clean_expired_tasks s now).2.expirations =
        s.expirations.filter (fun p => now < p.1) ∧
      (∀ k, (clean_expired_tasks s now).2.entries k =
        if s.expirations.any (fun p => decide (p.1 ≤ now) && decide (p.2 = k))
        then none else s.entries k) ∧
      (clean_expired_tasks s now).2.pub_sub = s.pub_sub ∧
      (clean_expired_tasks s now).2.shutdown = s.shutdown ∧
      (clean_expired_tasks s now).1 =
        ((clean_expired_tasks s now).2.expirations.head?).map Prod.fst ∧
      (∀ t, (clean_expired_tasks s now).1 = some t →
        ∀ p ∈ (clean_expired_tasks s now).2.expirations, t ≤ p.1) ∧
      ((clean_expired_tasks s now).1 = none ↔
        (clean_expired_tasks s now).2.expirations = [])) ∧
    (s.shutdown = true → clean_expired_tasks s now = (none, s)) ∧
    (∀ op, s.shutdown = true → (applyOp s op).shutdown = true) := by
  obtain ⟨hiff, hpw⟩ := h
  refine ⟨?_, ?_, fun op => shutdown_monotone s op⟩
  case refine_2 =>
    intro hsd
    unfold clean_expired_tasks
    rw [if_pos hsd]
  · intro hsd
    obtain ⟨h1, h2, h3⟩ := sweepLoop_spec s.expirations s.entries now hpw
    have hclean : clean_expired_tasks s now =
        ((sweepLoop s.entries s.expirations now).1,
          { s with entries := (sweepLoop s.entries s.expirations now).2.1,
                   expirations := (sweepLoop s.entries s.expirations now).2.2 }) := by
      unfold clean_expired_tasks
      rw [if_neg (by simp [hsd])]
    rw [hclean]
    have hpwrem : (s.expirations.filter (fun p => now < p.1)).Pairwise
        (fun p q => pairLt p q = true) :=
      hpw.sublist (List.filter_sublist _)
    refine ⟨h1, h2, rfl, by rw [hsd], by rw [h3, h1], ?_, ?_⟩
    · intro t hw p hp
      rw [h3] at hw
      rw [h1] at hp
      cases hrem : s.expirations.filter (fun p => now < p.1) with
      | nil =>
        rw [hrem] at hw
        simp at hw
      | cons q tail =>
        rw [hrem] at hw hp
        simp at hw
        rw [hrem] at hpwrem
        rw [List.pairwise_cons] at hpwrem
        rcases List.mem_cons.mp hp with rfl | hp2
        · omega
        · have := pairLt_fst_le _ _ (hpwrem.1 p hp2)
          omega
    · rw [h3, h1]
      cases s.expirations.filter (fun p => now < p.1) <;> simp

/-- Witness for C5: the sweep at time 20 on a concrete reachable state
with two timed entries removes the one that expired and keeps the
other. -/
theorem c5_sweep_cycle_witness :
    DbInv (applyOps initState
      [.set 0 [107] [118] (some 50), .set 2 [108] [119] (some 10)]) ∧
    (applyOps initState
      [.set 0 [107] [118] (some 50), .set 2 [108] [119] (some 10)]).shutdown = false ∧
    (clean_expired_tasks (applyOps initState
      [.set 0 [107] [118] (some 50), .set 2 [108] [119] (some 10)]) 20).1 = some 50 ∧
    dbGet (clean_expired_tasks (applyOps initState
      [.set 0 [107] [118] (some 50), .set 2 [108] [119] (some 10)]) 20).2 [108] = none ∧
    dbGet (clean_expired_tasks (applyOps initState
      [.set 0 [107] [118] (some 50), .set 2 [108] [119] (some 10)]) 20).2 [107] =
      some [118] ∧
    ((applyOps initState
      [.set 0 [107] [118] (some 50), .set 2 [108] [119] (some 10)]).shutdown = false →
      (clean_expired_tasks (applyOps initState
        [.set 0 [107] [118] (some 50), .set 2 [108] [119] (some 10)]) 20).2.expirations =
        (applyOps initState
          [.set 0 [107] [118] (some 50),
           .set 2 [108] [119] (some 10)]).expirations.filter (fun p => 20 < p.1)) := by
  have hr : Reachable (applyOps initState
      [.set 0 [107] [118] (some 50), .set 2 [108] [119] (some 10)]) :=
    reachable_applyOps initState .init _
  have hinv := dbInv_reachable _ hr
  refine ⟨hinv, rfl, rfl, rfl, rfl, ?_⟩
  intro hsd
  exact ((c5_sweep_cycle _ 20 hinv).1 hsd).1

/-! ### SET/GET round-trip and expiry (C3) -/

/-- Whether an operation is a `SET` of the given key. -/
def opSetsKey (k : Key) : Op → Bool
  | .set _ key _ _ => decide (key = k)
  | _ => false

theorem dbSet_entries_self (s : DbState) (now : Nat) (k : Key) (v : List Nat)
    (e : Option Nat) :
    (dbSet s now k v e).entries k = some ⟨v, e.map (fun d => now + d)⟩ := by
  unfold dbSet
  simp

theorem step_entry_preserved (k : Key) (v : List Nat) (exp : Option Nat)
    (s : DbState) (op : Op) (hop : opSetsKey k op = false) (hinv : DbInv s)
    (he : s.entries k = some ⟨v, exp⟩)
    (hx : ∀ t, exp = some t → False) :
    (applyOp s op).entries k = some ⟨v, exp⟩ := by
  cases op with
  | set now2 key2 v2 e2 =>
    have hne : k ≠ key2 := by
      intro hc
      rw [opSetsKey] at hop
      exact absurd hop (by simp [hc])
    simp only [applyOp]
    unfold dbSet
    simp only [if_neg hne]
    exact he
  | get _ => exact he
  | publish channel message =>
    simp only [applyOp]
    unfold dbPublish
    cases s.pub_sub channel <;> exact he
  | subscribe channel =>
    simp only [applyOp]
    unfold dbSubscribe
    cases s.pub_sub channel <;> exact he
  | sweep t2 =>
    simp only [applyOp]
    unfold clean_expired_tasks
    by_cases hsd : s.shutdown
    · rw [if_pos hsd]
      exact he
    · rw [if_neg hsd]
      obtain ⟨hiff, hpw⟩ := hinv
      obtain ⟨_, h2, _⟩ := sweepLoop_spec s.expirations s.entries t2 hpw
      have hany : s.expirations.any
          (fun p => decide (p.1 ≤ t2) && decide (p.2 = k)) = false := by
        rw [List.any_eq_false]
        intro p hp hc
        rw [Bool.and_eq_true, decide_eq_true_eq, decide_eq_true_eq] at hc
        obtain ⟨e2, he2, hex2⟩ := (hiff p.1 p.2).mp (by rw [Prod.mk.eta]; exact hp)
        rw [hc.2] at he2
        rw [he] at he2
        have : e2 = ⟨v, exp⟩ := (Option.some.inj he2).symm
        subst this
        simp at hex2
        exact hx p.1 hex2
      show (sweepLoop s.entries s.expirations t2).2.1 k = some ⟨v, exp⟩
      rw [h2 k, hany]
      simp [he]
  | shutdown => exact he

theorem entries_preserved (k : Key) (v : List Nat) (ops : List Op) :
    ∀ s : DbState, (∀ op ∈ ops, opSetsKey k op = false) → DbInv s →
      s.entries k = some ⟨v, none⟩ →
      (applyOps s ops).entries k = some ⟨v, none⟩ := by
  induction ops with
  | nil => intro s _ _ he; exact he
  | cons op rest ih =>
    intro s hops hinv he
    have h1 := step_entry_preserved k v none s op (hops op (by simp)) hinv he
      (fun t ht => by simp at ht)
    exact ih (applyOp s op) (fun o ho => hops o (by simp [ho]))
      (dbInv_step s op hinv) h1

theorem sweepLoop_entries_none (exps : List (Nat × Key)) :
    ∀ (entries : Key → Option EntryM) (now : Nat) (k : Key),
      entries k = none → (sweepLoop entries exps now).2.1 k = none := by
  induction exps with
  | nil => intro entries now k he; exact he
  | cons p rest ih =>
    intro entries now k he
    obtain ⟨t0, k0⟩ := p
    by_cases hlt : now < t0
    · rw [show sweepLoop entries ((t0, k0) :: rest) now =
        (some t0, entries, (t0, k0) :: rest) by rw [sweepLoop, if_pos hlt]]
      exact he
    · rw [show sweepLoop entries ((t0, k0) :: rest) now =
        sweepLoop (fun k2 => if k2 = k0 then none else entries k2) rest now by
          rw [sweepLoop, if_neg hlt]]
      refine ih _ now k ?_
      by_cases hk : k = k0 <;> simp [hk, he]

theorem entries_none_preserved (k : Key) (ops : List Op) :
    ∀ s : DbState, (∀ op ∈ ops, opSetsKey k op = false) →
      s.entries k = none → (applyOps s ops).entries k = none := by
  induction ops with
  | nil => intro s _ he; exact he
  | cons op rest ih =>
    intro s hops he
    refine ih (applyOp s op) (fun o ho => hops o (by simp [ho])) ?_
    cases op with
    | set now2 key2 v2 e2 =>
      have hne : k ≠ key2 := by
        intro hc
        have := hops (.set now2 key2 v2 e2) (by simp)
        rw [opSetsKey] at this
        exact absurd this (by simp [hc])
      simp only [applyOp]
      unfold dbSet
      simp only [if_neg hne]
      exact he
    | get _ => exact he
    | publish channel message =>
      simp only [applyOp]
      unfold dbPublish
      cases s.pub_sub channel <;> exact he
    | subscribe channel =>
      simp only [applyOp]
      unfold dbSubscribe
      cases s.pub_sub channel <;> exact he
    | sweep t2 =>
      simp only [applyOp]
      unfold clean_expired_tasks
      by_cases hsd : s.shutdown
      · rw [if_pos hsd]
        exact he
      · rw [if_neg hsd]
        exact sweepLoop_entries_none s.expirations s.entries t2 k he
    | shutdown => exact he

/-- C3: SET/GET round-trip with expiry.  Immediately after
`SET k v`, `GET k` returns the value; with no expiry it keeps returning
it under any further operations that do not `SET k` (sweeps at any time
included), until overwritten.  For `SET k v PX d` issued at time `now`,
the sweep scheduled by the store wakes at `now + d`: after the sweep at
any wall time `t ≥ now + d`, `GET k` returns Null; after a sweep at any
`t < now + d`, `GET k` still returns the value.  A key never `SET`
returns Null from any reachable state built without setting it. -/
theorem c3_set_get_roundtrip (s : DbState) (now : Nat) (k : Key) (v : List Nat)
    (hinv : DbInv s) (hsd : s.shutdown = false) :
    (∀ e : Option Nat, dbGet (dbSet s now k v e) k = some v) ∧
    (∀ ops, (∀ op ∈ ops, opSetsKey k op = false) →
      dbGet (applyOps (dbSet s now k v none) ops) k = some v) ∧
    (∀ d t, now + d ≤ t →
      dbGet (clean_expired_tasks (dbSet s now k v (some d)) t).2 k = none) ∧
    (∀ d t, t < now + d →
      dbGet (clean_expired_tasks (dbSet s now k v (some d)) t).2 k = some v) ∧
    (∀ ops, (∀ op ∈ ops, opSetsKey k op = false) →
      dbGet (applyOps initState ops) k = none) := by
  have hsd1 : ∀ e, (dbSet s now k v e).shutdown = false := by
    intro e
    unfold dbSet
    exact hsd
  refine ⟨?_, ?_, ?_, ?_, ?_⟩
  · intro e
    unfold dbGet
    rw [dbSet_entries_self]
    rfl
  · intro ops hops
    unfold dbGet
    rw [entries_preserved k v ops (dbSet s now k v none) hops
      (dbInv_set s now k v none hinv)
      (by rw [dbSet_entries_self]; rfl)]
    rfl
  · intro d t ht
    obtain ⟨hiff1, hpw1⟩ := dbInv_set s now k v (some d) hinv
    have hmem : (now + d, k) ∈ (dbSet s now k v (some d)).expirations := by
      refine (hiff1 (now + d) k).mpr ⟨⟨v, some (now + d)⟩, ?_, rfl⟩
      rw [dbSet_entries_self]
      rfl
    obtain ⟨_, h2, _⟩ := sweepLoop_spec (dbSet s now k v (some d)).expirations
      (dbSet s now k v (some d)).entries t hpw1
    have hany : (dbSet s now k v (some d)).expirations.any
        (fun p => decide (p.1 ≤ t) && decide (p.2 = k)) = true := by
      rw [List.any_eq_true]
      exact ⟨(now + d, k), hmem, by simp; omega⟩
    unfold dbGet
    unfold clean_expired_tasks
    rw [if_neg (by rw [hsd1]; simp)]
    show Option.map EntryM.data ((sweepLoop (dbSet s now k v (some d)).entries
      (dbSet s now k v (some d)).expirations t).2.1 k) = none
    rw [h2 k, hany]
    rfl
  · intro d t ht
    obtain ⟨hiff1, hpw1⟩ := dbInv_set s now k v (some d) hinv
    obtain ⟨_, h2, _⟩ := sweepLoop_spec (dbSet s now k v (some d)).expirations
      (dbSet s now k v (some d)).entries t hpw1
    have hany : (dbSet s now k v (some d)).expirations.any
        (fun p => decide (p.1 ≤ t) && decide (p.2 = k)) = false := by
      rw [List.any_eq_false]
      intro p hp hc
      rw [Bool.and_eq_true, decide_eq_true_eq, decide_eq_true_eq] at hc
      obtain ⟨e2, he2, hex2⟩ := (hiff1 p.1 p.2).mp (by rw [Prod.mk.eta]; exact hp)
      rw [hc.2, dbSet_entries_self] at he2
      have : e2 = ⟨v, some (now + d)⟩ := (Option.some.inj he2).symm
      subst this
      simp at hex2
      omega
    unfold dbGet
    unfold clean_expired_tasks
    rw [if_neg (by rw [hsd1]; simp)]
    show Option.map EntryM.data ((sweepLoop (dbSet s now k v (some d)).entries
      (dbSet s now k v (some d)).expirations t).2.1 k) = some v
    rw [h2 k, hany]
    rw [if_neg (by simp)]
    rw [dbSet_entries_self]
    rfl
  · intro ops hops
    unfold dbGet
    rw [entries_none_preserved k ops initState hops rfl]
    rfl

/-- Witness for C3: concrete SET/GET interactions against the empty
store: the value survives a sweep and a subscribe, a PX-50 entry set at
time 5 is gone after the sweep at 55 and alive after the sweep at 54,
and a never-set key reads Null. -/
theorem c3_set_get_roundtrip_witness :
    DbInv initState ∧ initState.shutdown = false ∧
    dbGet (dbSet initState 5 [107] [118] (some 50)) [107] = some [118] ∧
    dbGet (applyOps (dbSet initState 5 [107] [118] none)
      [.sweep 100, .subscribe [99], .set 7 [109] [1] none]) [107] = some [118] ∧
    dbGet (clean_expired_tasks (dbSet initState 5 [107] [118] (some 50)) 55).2 [107] =
      none ∧
    dbGet (clean_expired_tasks (dbSet initState 5 [107] [118] (some 50)) 54).2 [107] =
      some [118] ∧
    dbGet (applyOps initState [.set 3 [109] [1] none, .sweep 9]) [107] = none := by
  obtain ⟨h1, h2, h3, h4, h5⟩ :=
    c3_set_get_roundtrip initState 5 [107] [118] dbInv_init rfl
  refine ⟨dbInv_init, rfl, h1 (some 50), ?_, ?_, ?_, ?_⟩
  · exact h2 [.sweep 100, .subscribe [99], .set 7 [109] [1] none] (by decide)
  · exact h3 50 55 (by omega)
  · exact h4 50 54 (by omega)
  · exact h5 [.set 3 [109] [1] none, .sweep 9] (by decide)

/-! ### PUBLISH subscriber count (C6) -/

theorem subscribe_repeat (ch : Key) :
    ∀ (j : Nat) (s : DbState),
      (applyOps s (List.replicate j (Op.subscribe ch))).pub_sub ch =
        if j = 0 then s.pub_sub ch else some ((s.pub_sub ch).getD 0 + j) := by
  intro j
  induction j with
  | zero => intro s; simp [applyOps]
  | succ j ih =>
    intro s
    rw [List.replicate_succ]
    rw [show applyOps s (Op.subscribe ch :: List.replicate j (Op.subscribe ch)) =
      applyOps (applyOp s (.subscribe ch)) (List.replicate j (.subscribe ch)) from rfl]
    rw [ih]
    have hsub : (applyOp s (.subscribe ch)).pub_sub ch =
        some ((s.pub_sub ch).getD 0 + 1) := by
      simp only [applyOp]
      unfold dbSubscribe
      cases hp : s.pub_sub ch <;> simp [hp]
    by_cases hj : j = 0
    · subst hj
      rw [if_pos rfl, if_neg (by omega), hsub]
    · rw [if_neg hj, if_neg (by omega), hsub]
      simp
      omega

/-- C6: `publish` returns exactly the current number of live receivers
of the channel's broadcast sender and never changes the state: an absent
channel returns 0 and no topic entry is created; a topic whose receivers
have all been dropped returns 0 (`send` yields `Err`, mapped to 0 by
`unwrap_or`); a topic with `n` receivers returns `n`; and after `j ≥ 1`
fresh subscriptions the count returned is exactly `j` more than before,
tying the returned count to the number of current subscribers. -/
theorem c6_publish_count (s : DbState) (ch : Key) (msg : List Nat) (j : Nat) :
    (dbPublish s ch msg).2 = s ∧
    (s.pub_sub ch = none → (dbPublish s ch msg).1 = 0 ∧
      (dbPublish s ch msg).2.pub_sub ch = none) ∧
    (s.pub_sub ch = some 0 → (dbPublish s ch msg).1 = 0) ∧
    (∀ n, s.pub_sub ch = some n → (dbPublish s ch msg).1 = n) ∧
    (0 < j → (dbPublish (applyOps s (List.replicate j (.subscribe ch))) ch msg).1 =
      (s.pub_sub ch).getD 0 + j) := by
  have hpub2 : (dbPublish s ch msg).2 = s := by
    unfold dbPublish
    cases s.pub_sub ch <;> rfl
  refine ⟨hpub2, ?_, ?_, ?_, ?_⟩
  · intro hnone
    unfold dbPublish
    rw [hnone]
    exact ⟨rfl, by rw [hnone]⟩
  · intro hzero
    unfold dbPublish
    rw [hzero]
    rfl
  · intro n hn
    unfold dbPublish
    rw [hn]
    show broadcastSend n = n
    unfold broadcastSend
    by_cases h : n = 0
    · subst h
      rfl
    · rw [if_neg h]
  · intro hj
    have hrep := subscribe_repeat ch j s
    rw [if_neg (by omega)] at hrep
    unfold dbPublish
    rw [hrep]
    show broadcastSend ((s.pub_sub ch).getD 0 + j) = (s.pub_sub ch).getD 0 + j
    unfold broadcastSend
    rw [if_neg (by omega)]

/-- Witness for C6: publishing to an unknown channel on the empty state
returns 0, and after two subscribes to channel "a" a publish returns 2. -/
theorem c6_publish_count_witness :
    (dbPublish initState [97] [104]).1 = 0 ∧
    (dbPublish (applyOps initState (List.replicate 2 (.subscribe [97]))) [97] [104]).1 = 2 := by
  refine ⟨((c6_publish_count initState [97] [104] 2).2.1 rfl).1, ?_⟩
  have := (c6_publish_count initState [97] [104] 2).2.2.2.2 (by omega)
  simpa using this

/-! ### Command parsing (src/cmd.rs, src/cmd/set.rs, src/cmd/publish.rs,
src/cmd/subscribe.rs) -/

/-- `Parse::next_string` (src/cmd.rs:108-122) acting on the remaining
frames of the array: a `Simple` yields its string, a `Bulk` is UTF-8
validated (`String::from_utf8`), any other frame is a protocol error,
and an exhausted iterator yields `none`. -/
def next_string : List Frame → Except String (Option (List Nat) × List Frame)
  | [] => .ok (none, [])
  | .simple s :: rest => .ok (some s, rest)
  | .bulk b :: rest =>
    if validUtf8 b then .ok (some b, rest)
    else .error "invalid utf-8 sequence"
  | _ :: _ => .error "protocol error; expected simple or bulk string"

/-- `Parse::next_bytes` (src/cmd.rs:128-143): a `Simple` yields its
bytes, a `Bulk` its bytes unvalidated, any other frame is a protocol
error. -/
def next_bytes : List Frame → Except String (Option (List Nat) × List Frame)
  | [] => .ok (none, [])
  | .simple s :: rest => .ok (some s, rest)
  | .bulk b :: rest => .ok (some b, rest)
  | _ :: _ => .error "protocol error; expected simple or bulk string"

/-- `Parse::next_int` (src/cmd.rs:145-162): an `Integer` frame yields
its value; a `Simple` goes through `str::parse::<i64>` and a `Bulk`
through `atoi` (both: optional sign, all digits, checked `i64` range);
other frames are protocol errors. -/
def next_int : List Frame → Except String (Option Int × List Frame)
  | [] => .ok (none, [])
  | .integer i :: rest => .ok (some i, rest)
  | .simple s :: rest =>
    match atoi s with
    | some i => .ok (some i, rest)
    | none => .error "invalid digit found in string"
  | .bulk b :: rest =>
    match atoi b with
    | some i => .ok (some i, rest)
    | none => .error "protocol error; invalid number"
  | _ :: _ => .error "protocol error; expected int frame"

/-- The parsed `SET` command (src/cmd/set.rs): key, value, and the
optional expiry as an absolute duration in milliseconds
(`Duration::from_secs(n)` is `1000 * n` ms, `Duration::from_millis(n)`
is `n` ms). -/
structure SetCmd where
  key : List Nat
  value : List Nat
  expire : Option Nat

/-- `Set::from_frame` (src/cmd/set.rs:24-51): key (string), value
(bytes), then an optional option token: `EX` (bytes [69, 88]) with a
number of seconds or `PX` (bytes [80, 88]) with a number of
milliseconds; the `i64` amount goes through `try_into::<u64>`, which
fails on negatives.  Any other option token is an error.  Frames after
the amount are never read. -/
def SetCmd.from_frame (args : List Frame) : Except String SetCmd :=
  match next_string args with
  | .error e => .error e
  | .ok (none, _) => .error "protocol error: expected key"
  | .ok (some key, rest1) =>
    match next_bytes rest1 with
    | .error e => .error e
    | .ok (none, _) => .error "protocol error: expected value"
    | .ok (some value, rest2) =>
      match next_string rest2 with
      | .error e => .error e
      | .ok (none, _) => .ok ⟨key, value, none⟩
      | .ok (some opt, rest3) =>
        if opt = [69, 88] then
          match next_int rest3 with
          | .error e => .error e
          | .ok (none, _) => .error "protocol error; expected seconds for EX"
          | .ok (some secs, _) =>
            if secs < 0 then
              .error "out of range integral type conversion attempted"
            else .ok ⟨key, value, some (1000 * secs.toNat)⟩
        else if opt = [80, 88] then
          match next_int rest3 with
          | .error e => .error e
          | .ok (none, _) => .error "protocol error; expected seconds for EX"
          | .ok (some ms, _) =>
            if ms < 0 then
              .error "out of range integral type conversion attempted"
            else .ok ⟨key, value, some ms.toNat⟩
        else .error "currently SET only supports the expiration option"

/-- The parsed `PUBLISH` command (src/cmd/publish.rs): channel name and
message bytes. -/
structure PublishCmd where
  channel : List Nat
  message : List Nat

/-- `Publish::from_frame` (src/cmd/publish.rs:20-32): the channel AND
the message are both read with `next_string`, so the message bytes are
UTF-8 validated even though the frame is a Bulk of raw bytes. -/
def PublishCmd.from_frame (args : List Frame) : Except String PublishCmd :=
  match next_string args with
  | .error e => .error e
  | .ok (none, _) => .error "protocol error: expected channel name"
  | .ok (some channel, rest1) =>
    match next_string rest1 with
    | .error e => .error e
    | .ok (none, _) => .error "protocol error: expected message"
    | .ok (some message, _) => .ok ⟨channel, message⟩

/-- The `while let Some(channel) = parse.next_string()?` loops of
`Subscribe::from_frame` and `Unsubscribe::from_frame`
(src/cmd/subscribe.rs): drain the remaining frames as strings. -/
def collectStrings : List Frame → Except String (List (List Nat))
  | [] => .ok []
  | .simple s :: rest =>
    match collectStrings rest with
    | .ok l => .ok (s :: l)
    | .error e => .error e
  | .bulk b :: rest =>
    if validUtf8 b then
      match collectStrings rest with
      | .ok l => .ok (b :: l)
      | .error e => .error e
    else .error "invalid utf-8 sequence"
  | _ :: _ => .error "protocol error; expected simple or bulk string"

/-- The parsed commands (enum `Command` in src/cmd.rs). -/
inductive CommandM where
  | get (key : List Nat)
  | publish (cmd : PublishCmd)
  | set (cmd : SetCmd)
  | subscribe (channels : List (List Nat))
  | unsubscribe (channels : List (List Nat))
  | ping (msg : Option (List Nat))
  | unknown (name : List Nat)

/-- `Command::from_frame` (src/cmd.rs:37-55): the frame must be an
array; the first element is the command name (lowercase, matched
case-sensitively); the rest is handed to the per-command parser;
an unrecognized name becomes `Unknown`. -/
def CommandM.from_frame (frame : Frame) : Except String CommandM :=
  match frame with
  | .array frames =>
    match next_string frames with
    | .error e => .error e
    | .ok (none, _) => .error "protocol error; expected command name"
    | .ok (some name, rest) =>
      if name = [103, 101, 116] then
        match next_string rest with
        | .error e => .error e
        | .ok (none, _) => .error "protocol error: expected key"
        | .ok (some key, _) => .ok (.get key)
      else if name = [112, 117, 98, 108, 105, 115, 104] then
        match PublishCmd.from_frame rest with
        | .ok cmd => .ok (.publish cmd)
        | .error e => .error e
      else if name = [115, 101, 116] then
        match SetCmd.from_frame rest with
        | .ok cmd => .ok (.set cmd)
        | .error e => .error e
      else if name = [115, 117, 98, 115, 99, 114, 105, 98, 101] then
        match collectStrings rest with
        | .ok [] => .error "protocol error; expected at least one channel"
        | .ok channels => .ok (.subscribe channels)
        | .error e => .error e
      else if name = [117, 110, 115, 117, 98, 115, 99, 114, 105, 98, 101] then
        match collectStrings rest with
        | .ok channels => .ok (.unsubscribe channels)
        | .error e => .error e
      else if name = [112, 105, 110, 103] then
        match next_bytes rest with
        | .error e => .error e
        | .ok (none, _) => .ok (.ping none)
        | .ok (some msg, _) => .ok (.ping (some msg))
      else .ok (.unknown name)
  | _ => .error "protocol error; expected array"

/-! ### SET command parsing (C7) -/

/-- The string value a frame yields through `next_string`: `Simple`
directly, `Bulk` if valid UTF-8, nothing otherwise. -/
def stringFrameVal : Frame → Option (List Nat)
  | .simple s => some s
  | .bulk b => if validUtf8 b then some b else none
  | _ => none

/-- Whether a frame yields bytes through `next_bytes`. -/
def isBytesFrame : Frame → Bool
  | .simple _ => true
  | .bulk _ => true
  | _ => false

/-- The integer a frame yields through `next_int`. -/
def intFrameVal : Frame → Option Int
  | .integer i => some i
  | .simple s => atoi s
  | .bulk b => atoi b
  | _ => none

theorem next_string_none (f : Frame) (rest : List Frame)
    (h : stringFrameVal f = none) : ∃ e, next_string (f :: rest) = .error e := by
  cases f with
  | simple s => simp [stringFrameVal] at h
  | bulk b =>
    by_cases hu : validUtf8 b
    · simp [stringFrameVal, hu] at h
    · exact ⟨"invalid utf-8 sequence", by simp [next_string, hu]⟩
  | integer v => exact ⟨_, rfl⟩
  | null => exact ⟨_, rfl⟩
  | array fs => exact ⟨_, rfl⟩
  | error s => exact ⟨_, rfl⟩

theorem next_string_some (f : Frame) (rest : List Frame) (s : List Nat)
    (h : stringFrameVal f = some s) : next_string (f :: rest) = .ok (some s, rest) := by
  cases f with
  | simple s2 =>
    have : s2 = s := Option.some.inj h
    subst this
    rfl
  | bulk b =>
    by_cases hu : validUtf8 b
    · rw [stringFrameVal, if_pos hu] at h
      have : b = s := Option.some.inj h
      subst this
      simp [next_string, hu]
    · rw [stringFrameVal, if_neg hu] at h
      exact absurd h (by simp)
  | integer v => exact absurd h (by simp [stringFrameVal])
  | null => exact absurd h (by simp [stringFrameVal])
  | array fs => exact absurd h (by simp [stringFrameVal])
  | error s2 => exact absurd h (by simp [stringFrameVal])

theorem next_bytes_false (f : Frame) (rest : List Frame)
    (h : isBytesFrame f = false) : ∃ e, next_bytes (f :: rest) = .error e := by
  cases f with
  | simple s => simp [isBytesFrame] at h
  | bulk b => simp [isBytesFrame] at h
  | integer v => exact ⟨_, rfl⟩
  | null => exact ⟨_, rfl⟩
  | array fs => exact ⟨_, rfl⟩
  | error s => exact ⟨_, rfl⟩

theorem next_bytes_true (f : Frame) (rest : List Frame)
    (h : isBytesFrame f = true) :
    ∃ b, next_bytes (f :: rest) = .ok (some b, rest) := by
  cases f with
  | simple s => exact ⟨s, rfl⟩
  | bulk b => exact ⟨b, rfl⟩
  | integer v => simp [isBytesFrame] at h
  | null => simp [isBytesFrame] at h
  | array fs => simp [isBytesFrame] at h
  | error s => simp [isBytesFrame] at h

theorem next_int_none (f : Frame) (rest : List Frame)
    (h : intFrameVal f = none) : ∃ e, next_int (f :: rest) = .error e := by
  cases f with
  | simple s =>
    rw [intFrameVal] at h
    exact ⟨_, by rw [next_int, h]⟩
  | bulk b =>
    rw [intFrameVal] at h
    exact ⟨_, by rw [next_int, h]⟩
  | integer v => simp [intFrameVal] at h
  | null => exact ⟨_, rfl⟩
  | array fs => exact ⟨_, rfl⟩
  | error s => exact ⟨_, rfl⟩

theorem next_int_some (f : Frame) (rest : List Frame) (n : Int)
    (h : intFrameVal f = some n) : next_int (f :: rest) = .ok (some n, rest) := by
  cases f with
  | simple s =>
    rw [intFrameVal] at h
    rw [next_int, h]
  | bulk b =>
    rw [intFrameVal] at h
    rw [next_int, h]
  | integer v =>
    rw [intFrameVal] at h
    rw [next_int, Option.some.inj h]
  | null => exact absurd h (by simp [intFrameVal])
  | array fs => exact absurd h (by simp [intFrameVal])
  | error s => exact absurd h (by simp [intFrameVal])

/-- Worded from the amended claim: `SET` argument lists that parse are
exactly `(key, value)` and `(key, value, option, amount, extras…)`
where the key is a string frame, the value a bytes frame, the option
string is `EX` or `PX`, the amount a non-negative integer frame, and
any frames after the amount are ignored. -/
def setShapeAmended (args : List Frame) : Bool :=
  match args with
  | k :: _v :: rest =>
    (stringFrameVal k).isSome && isBytesFrame _v &&
    (match rest with
     | [] => true
     | o :: rest2 =>
       (match stringFrameVal o with
        | some s =>
          (decide (s = [69, 88]) || decide (s = [80, 88])) &&
          (match rest2 with
           | amt :: _ =>
             (match intFrameVal amt with
              | some n => decide (0 ≤ n)
              | none => false)
           | [] => false)
        | none => false))
  | _ => false

theorem next_string_nil : next_string [] = .ok (none, []) := rfl

theorem next_bytes_nil : next_bytes [] = .ok (none, []) := rfl

theorem next_int_nil : next_int [] = .ok (none, []) := rfl

theorem setShape_correct (args : List Frame) :
    (SetCmd.from_frame args).isOk = setShapeAmended args := by
  cases args with
  | nil => rfl
  | cons k args1 =>
    cases hk : stringFrameVal k with
    | none =>
      obtain ⟨e, he⟩ := next_string_none k args1 hk
      cases args1 <;>
        simp [SetCmd.from_frame, setShapeAmended, he, hk, Except.isOk, Except.toBool]
    | some key =>
      have hns := next_string_some k args1 key hk
      cases args1 with
      | nil =>
        simp [SetCmd.from_frame, setShapeAmended, hns, next_bytes_nil,
          Except.isOk, Except.toBool]
      | cons v args2 =>
        cases hv : isBytesFrame v with
        | false =>
          obtain ⟨e, he⟩ := next_bytes_false v args2 hv
          simp [SetCmd.from_frame, setShapeAmended, hns, he, hk, hv,
            Except.isOk, Except.toBool]
        | true =>
          obtain ⟨bval, hb⟩ := next_bytes_true v args2 hv
          cases args2 with
          | nil =>
            simp [SetCmd.from_frame, setShapeAmended, hns, hb,
              next_string_nil, hk, hv, Except.isOk, Except.toBool]
          | cons o args3 =>
            cases ho : stringFrameVal o with
            | none =>
              obtain ⟨e, he⟩ := next_string_none o args3 ho
              simp [SetCmd.from_frame, setShapeAmended, hns, hb, he, hk, hv,
                ho, Except.isOk, Except.toBool]
            | some opt =>
              have hos := next_string_some o args3 opt ho
              by_cases hEX : opt = [69, 88]
              · cases args3 with
                | nil =>
                  simp [SetCmd.from_frame, setShapeAmended, hns, hb, hos,
                    hEX, next_int_nil, hk, hv, ho, Except.isOk, Except.toBool]
                | cons amt args4 =>
                  cases ha : intFrameVal amt with
                  | none =>
                    obtain ⟨e, he⟩ := next_int_none amt args4 ha
                    simp [SetCmd.from_frame, setShapeAmended, hns, hb, hos,
                      he, hEX, hk, hv, ho, ha, Except.isOk, Except.toBool]
                  | some n =>
                    have hni := next_int_some amt args4 n ha
                    by_cases hn : n < 0
                    · have hdec : decide ((0 : Int) ≤ n) = false := by
                        rw [decide_eq_false_iff_not]
                        omega
                      simp [SetCmd.from_frame, setShapeAmended, hns, hb, hos,
                        hni, hEX, hk, hv, ho, ha, hn, hdec, Except.isOk, Except.toBool]
                    · have hdec : decide ((0 : Int) ≤ n) = true := by
                        rw [decide_eq_true_eq]
                        omega
                      simp [SetCmd.from_frame, setShapeAmended, hns, hb, hos,
                        hni, hEX, hk, hv, ho, ha, hn, hdec, Except.isOk, Except.toBool]
              · by_cases hPX : opt = [80, 88]
                · cases args3 with
                  | nil =>
                    simp [SetCmd.from_frame, setShapeAmended, hns, hb, hos,
                      hEX, hPX, next_int_nil, hk, hv, ho, Except.isOk, Except.toBool]
                  | cons amt args4 =>
                    cases ha : intFrameVal amt with
                    | none =>
                      obtain ⟨e, he⟩ := next_int_none amt args4 ha
                      simp [SetCmd.from_frame, setShapeAmended, hns, hb, hos,
                        he, hEX, hPX, hk, hv, ho, ha, Except.isOk, Except.toBool]
                    | some n =>
                      have hni := next_int_some amt args4 n ha
                      by_cases hn : n < 0
                      · have hdec : decide ((0 : Int) ≤ n) = false := by
                          rw [decide_eq_false_iff_not]
                          omega
                        simp [SetCmd.from_frame, setShapeAmended, hns, hb,
                          hos, hni, hEX, hPX, hk, hv, ho, ha, hn, hdec,
                          Except.isOk, Except.toBool]
                      · have hdec : decide ((0 : Int) ≤ n) = true := by
                          rw [decide_eq_true_eq]
                          omega
                        simp [SetCmd.from_frame, setShapeAmended, hns, hb,
                          hos, hni, hEX, hPX, hk, hv, ho, ha, hn, hdec,
                          Except.isOk, Except.toBool]
                · simp [SetCmd.from_frame, setShapeAmended, hns, hb, hos,
                    hEX, hPX, hk, hv, ho, Except.isOk, Except.toBool]

/-- C7 (amended): `SET` parsing succeeds exactly on `(key, value)` and
`(key, value, option, amount, …extras)` where the option is `EX` with a
non-negative number of seconds or `PX` with a non-negative number of
milliseconds; frames after the amount are ignored, any other option
token is an error, negative amounts fail the `u64` conversion, and an
accepted expiry is converted to the absolute timestamp `now + delta`
when inserted into the store by `Db::set`. -/
theorem c7_set_parse_amended :
    (∀ args, (SetCmd.from_frame args).isOk = setShapeAmended args) ∧
    (∀ key value n rest, validUtf8 key = true → (0 : Int) ≤ n →
      SetCmd.from_frame
        (.bulk key :: .bulk value :: .bulk [69, 88] :: .integer n :: rest) =
        .ok ⟨key, value, some (1000 * n.toNat)⟩) ∧
    (∀ key value n rest, validUtf8 key = true → (0 : Int) ≤ n →
      SetCmd.from_frame
        (.bulk key :: .bulk value :: .bulk [80, 88] :: .integer n :: rest) =
        .ok ⟨key, value, some n.toNat⟩) ∧
    (∀ key value opt rest, validUtf8 key = true → validUtf8 opt = true →
      opt ≠ [69, 88] → opt ≠ [80, 88] →
      SetCmd.from_frame (.bulk key :: .bulk value :: .bulk opt :: rest) =
        .error "currently SET only supports the expiration option") ∧
    (∀ s now k v d, (dbSet s now k v (some d)).entries k =
      some ⟨v, some (now + d)⟩) := by
  refine ⟨setShape_correct, ?_, ?_, ?_, ?_⟩
  · intro key value n rest hkey hn
    simp [SetCmd.from_frame, next_string, next_bytes, next_int, hkey,
      show validUtf8 [69, 88] = true from rfl, show ¬(n < 0) from by omega]
  · intro key value n rest hkey hn
    simp [SetCmd.from_frame, next_string, next_bytes, next_int, hkey,
      show validUtf8 [80, 88] = true from rfl, show ¬(n < 0) from by omega]
  · intro key value opt rest hkey hopt hEX hPX
    simp [SetCmd.from_frame, next_string, next_bytes, hkey, hopt, hEX, hPX]
  · intro s now k v d
    rw [dbSet_entries_self]
    rfl

/-- Witness for C7: `SET k v PX 5` parses with a 5 ms expiry, `SET k v
EX 5` with a 5000 ms expiry, a lowercase option errors, and the stored
`expires_at` is the absolute `now + delta`. -/
theorem c7_set_parse_amended_witness :
    validUtf8 [107] = true ∧ (0 : Int) ≤ 5 ∧
    SetCmd.from_frame [.bulk [107], .bulk [118], .bulk [80, 88], .integer 5] =
      .ok ⟨[107], [118], some 5⟩ ∧
    SetCmd.from_frame [.bulk [107], .bulk [118], .bulk [69, 88], .integer 5] =
      .ok ⟨[107], [118], some 5000⟩ ∧
    SetCmd.from_frame [.bulk [107], .bulk [118], .bulk [101, 120], .integer 5] =
      .error "currently SET only supports the expiration option" ∧
    (dbSet initState 7 [107] [118] (some 5)).entries [107] =
      some ⟨[118], some 12⟩ :=
  ⟨rfl, by decide,
    c7_set_parse_amended.2.2.1 [107] [118] 5 [] rfl (by decide),
    c7_set_parse_amended.2.1 [107] [118] 5 [] rfl (by decide),
    c7_set_parse_amended.2.2.2.1 [107] [118] [101, 120] [.integer 5] rfl rfl
      (by decide) (by decide),
    c7_set_parse_amended.2.2.2.2 initState 7 [107] [118] 5⟩

/-- Counterexample for C7 as frozen: a five-element argument list
`(key, value, EX, 5, junk)` parses successfully, although the claim says
parsing succeeds exactly on the two- and four-element shapes. -/
theorem c7_set_parse_counterexample :
    SetCmd.from_frame
      [.bulk [107], .bulk [118], .bulk [69, 88], .integer 5, .bulk [106]] =
      .ok ⟨[107], [118], some 5000⟩ ∧
    ([.bulk [107], .bulk [118], .bulk [69, 88], .integer 5,
      .bulk [106]] : List Frame).length = 5 :=
  ⟨rfl, rfl⟩

/-- C10 (amended): a `PUBLISH` command frame
`Array[Bulk "publish", Bulk channel, Bulk message]` with a valid-UTF-8
channel parses exactly when the message bytes are valid UTF-8 (the
message is read with `Parse::next_string`, which runs
`String::from_utf8`), and the parsed command then carries exactly the
message bytes. -/
theorem c10_publish_parse_amended (ch msg : List Nat)
    (hch : validUtf8 ch = true) :
    (validUtf8 msg = true →
      CommandM.from_frame (.array [.bulk [112, 117, 98, 108, 105, 115, 104],
        .bulk ch, .bulk msg]) = .ok (.publish ⟨ch, msg⟩)) ∧
    (validUtf8 msg = false →
      CommandM.from_frame (.array [.bulk [112, 117, 98, 108, 105, 115, 104],
        .bulk ch, .bulk msg]) = .error "invalid utf-8 sequence") := by
  have h1 : validUtf8 [112, 117, 98, 108, 105, 115, 104] = true := rfl
  have h2 : ¬([112, 117, 98, 108, 105, 115, 104] : List Nat) = [103, 101, 116] := by
    decide
  constructor
  · intro hmsg
    simp [CommandM.from_frame, PublishCmd.from_frame, next_string, hch, hmsg,
      h1, h2]
  · intro hmsg
    simp [CommandM.from_frame, PublishCmd.from_frame, next_string, hch, hmsg,
      h1, h2]

/-- Witness for C10 (amended): channel "c", message "hi" parses and
carries exactly those bytes; message [0xFF] is rejected. -/
theorem c10_publish_parse_amended_witness :
    validUtf8 [99] = true ∧ validUtf8 [104, 105] = true ∧
    validUtf8 [255] = false ∧
    CommandM.from_frame (.array [.bulk [112, 117, 98, 108, 105, 115, 104],
      .bulk [99], .bulk [104, 105]]) = .ok (.publish ⟨[99], [104, 105]⟩) ∧
    CommandM.from_frame (.array [.bulk [112, 117, 98, 108, 105, 115, 104],
      .bulk [99], .bulk [255]]) = .error "invalid utf-8 sequence" :=
  ⟨rfl, rfl, rfl,
    (c10_publish_parse_amended [99] [104, 105] rfl).1 rfl,
    (c10_publish_parse_amended [99] [255] rfl).2 rfl⟩

/-- Counterexample for C10 as frozen: the message bytes [0xFF] are a
perfectly good byte payload, the channel "c" is valid UTF-8, yet parsing
the command `Array[Bulk "publish", Bulk "c", Bulk [0xFF]]` fails with a
UTF-8 error: `Publish::from_frame` reads the message with
`Parse::next_string`, which validates UTF-8, contradicting "parsing
succeeds for every byte sequence message, without UTF-8 validation". -/
theorem c10_publish_parse_counterexample :
    validUtf8 [255] = false ∧
    CommandM.from_frame (.array [.bulk [112, 117, 98, 108, 105, 115, 104],
      .bulk [99], .bulk [255]]) = .error "invalid utf-8 sequence" :=
  ⟨rfl, rfl⟩

/-! ### Subscription-loop accounting (C9) -/

/-- `subscribe_channel` (src/cmd/subscribe.rs:67-95): the per-connection
subscription map is modelled by its key list in `StreamMap` order
(`StreamMap::insert` removes an existing entry for the key and pushes
the new one at the end).  The confirmation frame is
`Array[Bulk "subscribe", Bulk channel, Integer n]` with `n` the map size
after the insertion. -/
def subscribe_channel (subs : List Key) (channel : Key) : List Key × Frame :=
  let subs2 := (subs.erase channel) ++ [channel]
  (subs2, .array [.bulk [115, 117, 98, 115, 99, 114, 105, 98, 101],
    .bulk channel, .integer (subs2.length : Int)])

/-- The `for channel in channels` loop of `Subscribe::apply` and of the
`Command::Subscribe` arm of `handle_command`: subscribe to each channel
in order, collecting the written confirmation frames. -/
def subLoop : List Key → List Key → List Key × List Frame
  | subs, [] => (subs, [])
  | subs, ch :: rest =>
    let r1 := subscribe_channel subs ch
    let r := subLoop r1.1 rest
    (r.1, r1.2 :: r.2)

/-- The `for channel in channels` loop of the `Command::Unsubscribe` arm
of `handle_command` (src/cmd/subscribe.rs:115-128): remove each named
channel and write `Array[Bulk "unsubscribe", Bulk channel, Integer n]`
with `n` the remaining per-connection count after that removal. -/
def unsubLoop : List Key → List Key → List Key × List Frame
  | subs, [] => (subs, [])
  | subs, ch :: rest =>
    let subs2 := subs.erase ch
    let fr := Frame.array [.bulk [117, 110, 115, 117, 98, 115, 99, 114, 105, 98, 101],
      .bulk ch, .integer (subs2.length : Int)]
    let r := unsubLoop subs2 rest
    (r.1, fr :: r.2)

/-- The `Command::Unsubscribe` arm of `handle_command`: an empty channel
list is replaced by all currently subscribed channels (in map order)
before the removal loop. -/
def handle_unsubscribe (subs : List Key) (channels : List Key) :
    List Key × List Frame :=
  unsubLoop subs (if channels = [] then subs else channels)

theorem mem_subscribe_channel (subs : List Key) (channel x : Key) :
    x ∈ (subscribe_channel subs channel).1 ↔ x ∈ subs ∨ x = channel := by
  show x ∈ (subs.erase channel) ++ [channel] ↔ _
  rw [List.mem_append]
  by_cases hx : x = channel
  · subst hx
    simp
  · rw [List.mem_erase_of_ne hx]
    simp [hx]

theorem subscribe_channel_nodup (subs : List Key) (channel : Key)
    (h : subs.Nodup) : (subscribe_channel subs channel).1.Nodup := by
  show ((subs.erase channel) ++ [channel]).Nodup
  rw [List.nodup_append]
  refine ⟨h.erase channel, List.nodup_singleton channel, ?_⟩
  intro x hx hc
  rw [List.mem_singleton] at hc
  subst hc
  exact h.not_mem_erase hx

theorem subscribe_channel_length (subs : List Key) (channel : Key)
    (h : subs.Nodup) :
    (subscribe_channel subs channel).1.length =
      if channel ∈ subs then subs.length else subs.length + 1 := by
  show ((subs.erase channel) ++ [channel]).length = _
  rw [List.length_append]
  by_cases hm : channel ∈ subs
  · rw [if_pos hm, List.length_erase_of_mem hm]
    have : 1 ≤ subs.length := List.length_pos.mpr (by rintro rfl; simp at hm)
    simp
    omega
  · rw [if_neg hm, List.erase_of_not_mem hm]
    simp

theorem unsubLoop_fst (chs : List Key) :
    ∀ subs : List Key, subs.Nodup →
      (unsubLoop subs chs).1 = subs.filter (fun s => decide (s ∉ chs)) := by
  induction chs with
  | nil =>
    intro subs _
    show subs = _
    exact (List.filter_eq_self.mpr (fun a _ => by simp)).symm
  | cons ch rest ih =>
    intro subs hnd
    show (unsubLoop (subs.erase ch) rest).1 = _
    rw [ih (subs.erase ch) (hnd.erase ch), hnd.erase_eq_filter ch,
      List.filter_filter]
    refine List.filter_congr ?_
    intro x _
    by_cases h1 : x = ch
    · subst h1
      simp
    · by_cases h2 : x ∈ rest <;> simp [h1, h2]

theorem unsubLoop_frames_length (chs : List Key) :
    ∀ subs : List Key, (unsubLoop subs chs).2.length = chs.length := by
  induction chs with
  | nil => intro subs; rfl
  | cons ch rest ih =>
    intro subs
    show ((unsubLoop (subs.erase ch) rest).2.length + 1) = _
    rw [ih (subs.erase ch)]
    rfl

/-- C9: subscription-loop accounting.  Each SUBSCRIBE confirmation is
`Array[Bulk "subscribe", Bulk channel, Integer n]` where `n` is the
per-connection subscription count after adding that channel (the count
grows only when the channel is new).  UNSUBSCRIBE with a non-empty list
removes exactly the named channels; with an empty list it removes every
subscribed channel; after each removal the handler writes
`Array[Bulk "unsubscribe", Bulk channel, Integer remaining]` with the
per-connection remaining count, one frame per processed channel. -/
theorem c9_subscription_accounting :
    (∀ subs ch, (subscribe_channel subs ch).2 =
      .array [.bulk [115, 117, 98, 115, 99, 114, 105, 98, 101], .bulk ch,
        .integer ((subscribe_channel subs ch).1.length : Int)]) ∧
    (∀ subs ch x, x ∈ (subscribe_channel subs ch).1 ↔ x ∈ subs ∨ x = ch) ∧
    (∀ subs ch, subs.Nodup → (subscribe_channel subs ch).1.length =
      if ch ∈ subs then subs.length else subs.length + 1) ∧
    (∀ subs ch rest, unsubLoop subs (ch :: rest) =
      ((unsubLoop (subs.erase ch) rest).1,
        .array [.bulk [117, 110, 115, 117, 98, 115, 99, 114, 105, 98, 101],
          .bulk ch, .integer ((subs.erase ch).length : Int)]
          :: (unsubLoop (subs.erase ch) rest).2)) ∧
    (∀ subs chs, subs.Nodup → chs ≠ [] →
      (handle_unsubscribe subs chs).1 =
        subs.filter (fun s => decide (s ∉ chs))) ∧
    (∀ subs, subs.Nodup → (handle_unsubscribe subs []).1 = [] ∧
      (handle_unsubscribe subs []).2.length = subs.length) := by
  refine ⟨fun subs ch => rfl, mem_subscribe_channel, subscribe_channel_length,
    fun subs ch rest => rfl, ?_, ?_⟩
  · intro subs chs hnd hne
    unfold handle_unsubscribe
    rw [if_neg hne]
    exact unsubLoop_fst chs subs hnd
  · intro subs hnd
    constructor
    · show (unsubLoop subs (if ([] : List Key) = [] then subs else [])).1 = []
      rw [if_pos rfl, unsubLoop_fst subs subs hnd]
      rw [List.filter_eq_nil_iff]
      intro a ha
      simp [ha]
    · show (unsubLoop subs (if ([] : List Key) = [] then subs else [])).2.length = _
      rw [if_pos rfl, unsubLoop_frames_length subs subs]

/-- Witness for C9: on the concrete subscription list ["a", "b"], adding
"c" gives count 3; unsubscribing ["c"] from ["a","b","c"] leaves
["a","b"]; unsubscribing with the empty list removes all three channels
and writes three confirmations. -/
theorem c9_subscription_accounting_witness :
    ([[97], [98]] : List Key).Nodup ∧
    ([[97], [98], [99]] : List Key).Nodup ∧
    ([[99]] : List Key) ≠ [] ∧
    (subscribe_channel [[97], [98]] [99]).1.length = 3 ∧
    (handle_unsubscribe [[97], [98], [99]] [[99]]).1 = [[97], [98]] ∧
    (handle_unsubscribe [[97], [98], [99]] []).1 = [] ∧
    (handle_unsubscribe [[97], [98], [99]] []).2.length = 3 := by
  refine ⟨by decide, by decide, by decide, ?_, ?_, ?_, ?_⟩
  · rw [c9_subscription_accounting.2.2.1 [[97], [98]] [99] (by decide)]
    decide
  · rw [c9_subscription_accounting.2.2.2.2.1 [[97], [98], [99]] [[99]]
      (by decide) (by decide)]
    decide
  · exact (c9_subscription_accounting.2.2.2.2.2 [[97], [98], [99]]
      (by decide)).1
  · exact (c9_subscription_accounting.2.2.2.2.2 [[97], [98], [99]]
      (by decide)).2
